import Mathlib

/-!
Verification of the extraction / normalization / tagging core of an
AI-image-metadata decoder written in Rust.

The Rust sources are shallowly embedded: Rust strings become lists of
characters (`Str`), byte buffers become lists of naturals (one per byte),
JSON values become an inductive type, and a fallible Rust function that
returns `anyhow::Result<T>` but can only ever produce `Ok` is mapped to
`Option T` with `some` playing the role of `Ok`.
-/


set_option maxHeartbeats 1000000


abbrev Str := List Char

/-- Unicode category `Cc` (U+0000..U+001F and U+007F..U+009F), which is
exactly Rust's `char::is_control`. -/
def rustIsControl (c : Char) : Bool :=
  c.toNat ≤ 0x1F || (0x7F ≤ c.toNat && c.toNat ≤ 0x9F)

/-- The Unicode `White_Space` property, which is exactly Rust's
`char::is_whitespace`. -/
def rustIsWhitespace (c : Char) : Bool :=
  (0x9 ≤ c.toNat && c.toNat ≤ 0xD) || c.toNat = 0x20 || c.toNat = 0x85 ||
  c.toNat = 0xA0 || c.toNat = 0x1680 || (0x2000 ≤ c.toNat && c.toNat ≤ 0x200A) ||
  c.toNat = 0x2028 || c.toNat = 0x2029 || c.toNat = 0x202F || c.toNat = 0x205F ||
  c.toNat = 0x3000

/-- The control-character filter of `PromptNormalizer::normalize`: keep a
character when it is not a control character, or is `\n` or `\t`. -/
def filterControl (s : Str) : Str :=
  s.filter (fun c => !rustIsControl c || c = '\n' || c = '\t')

def isSpaceTab (c : Char) : Bool := c = ' ' || c = '\t'

/-- `Regex::new(r"[ \t]+")` / `replace_all(_, " ")`: every maximal run of
spaces and tabs becomes a single space. -/
def collapseSpaceTab : Str → Str
  | [] => []
  | c :: rest =>
    if isSpaceTab c then ' ' :: collapseSpaceTab (rest.dropWhile isSpaceTab)
    else c :: collapseSpaceTab rest
termination_by s => s.length
decreasing_by
  · exact Nat.lt_succ_of_le (List.dropWhile_sublist _).length_le
  · simp

/-- `String::replace("\r\n", "\n")`: scans left to right, replacing each
occurrence of `\r\n`. -/
def replaceCRLF : Str → Str
  | [] => []
  | [c] => [c]
  | c :: d :: rest =>
    if c = '\r' ∧ d = '\n' then '\n' :: replaceCRLF rest
    else c :: replaceCRLF (d :: rest)

/-- `String::replace('\r', "\n")`. -/
def replaceCR (s : Str) : Str := s.map (fun c => if c = '\r' then '\n' else c)

/-- Rust `str::split_inclusive('\n')`: pieces keep their trailing `\n`;
an empty string yields no pieces. -/
def splitInclusiveNL : Str → List Str
  | [] => []
  | c :: rest =>
    if c = '\n' then ['\n'] :: splitInclusiveNL rest
    else
      match splitInclusiveNL rest with
      | [] => [[c]]
      | p :: ps => (c :: p) :: ps

/-- The per-piece map of Rust `str::lines`: strip one trailing `\n`, and a
trailing `\r` only when the `\n` was stripped. -/
def rustLineStrip (s : Str) : Str :=
  match s.reverse with
  | [] => s
  | d :: t =>
    if d = '\n' then (if t.head? = some '\r' then t.tail.reverse else t.reverse)
    else s

/-- Rust `str::lines`. -/
def rustLines (s : Str) : List Str := (splitInclusiveNL s).map rustLineStrip

def dropLeadingWs (s : Str) : Str := s.dropWhile rustIsWhitespace

def dropTrailingWs (s : Str) : Str := (s.reverse.dropWhile rustIsWhitespace).reverse

/-- Rust `str::trim` (Unicode-whitespace trim on both sides). -/
def rustTrim (s : Str) : Str := dropTrailingWs (dropLeadingWs s)

/-- `lines.join("\n")`. -/
def joinNL : List Str → Str
  | [] => []
  | [p] => p
  | p :: q :: rest => p ++ '\n' :: joinNL (q :: rest)

/-- `Regex::new(r"\n{3,}")` / `replace_all(_, "\n\n")`: every run of three
or more newlines becomes exactly two. -/
def collapseNL : Str → Str
  | [] => []
  | c :: rest =>
    if c = '\n' then
      (if 2 ≤ (rest.takeWhile (· = '\n')).length then ['\n', '\n']
       else '\n' :: rest.takeWhile (· = '\n')) ++
        collapseNL (rest.dropWhile (· = '\n'))
    else c :: collapseNL rest
termination_by s => s.length
decreasing_by
  · exact Nat.lt_succ_of_le (List.dropWhile_sublist _).length_le
  · simp

/-- The line-trimming stage of `normalize`: split into lines, trim each
line, and re-join with `\n`. -/
def lineStage (s : Str) : Str := joinNL ((rustLines s).map rustTrim)

/-- `PromptNormalizer::normalize`, stage for stage:
control-character filter, `[ \t]+` collapse, `\r\n` and `\r`
normalization, per-line trim, `\n{3,}` collapse, and overall trim. -/
def PromptNormalizer.normalize (s : Str) : Str :=
  rustTrim (collapseNL (lineStage (replaceCR (replaceCRLF (collapseSpaceTab (filterControl s))))))

/-- Rust `str::split(sep)`: `n` separators yield `n + 1` pieces. -/
def splitSep (sep : Char) : Str → List Str
  | [] => [[]]
  | c :: rest =>
    match splitSep sep rest with
    | [] => [[c]]
    | p :: ps => if c = sep then [] :: p :: ps else (c :: p) :: ps

/-- `PromptNormalizer::extract_segments`: split on commas, normalize each
piece, drop empty results. -/
def PromptNormalizer.extract_segments (prompt : Str) : List Str :=
  ((splitSep ',' prompt).map PromptNormalizer.normalize).filter (fun s => !s.isEmpty)

/-! ## Toolkit: dropWhile, trim, split and join -/


/-! ## Toolkit: splitSep / joinNL algebra -/


/-! ## Toolkit: `rustLines` versus `splitSep '\n'` on carriage-return-free input -/


/-- Drop the last piece of a split when (and only when) it is empty; on a
carriage-return-free string this turns `splitSep '\n'` into `str::lines`. -/
def dropLastEmpty : List Str → List Str
  | [] => []
  | [p] => if p = [] then [] else [p]
  | p :: q :: rest => p :: dropLastEmpty (q :: rest)

/-! ## Toolkit: fixed points and ranges of the normalizer stages -/


/-- The two invariants that make the `[ \t]+` collapse a no-op: no tab at
all, and no two adjacent spaces. -/
def noTabSS (s : Str) : Prop :=
  '\t' ∉ s ∧ List.Chain' (fun a b => ¬(a = ' ' ∧ b = ' ')) s

/-! ## Toolkit: joinNL membership and chains -/


/-! ## Toolkit: collapseNL -/


/-- No run of three or more newlines: the `\n{3,}` collapse is a no-op. -/
def NoNL3 (s : Str) : Prop := ¬(['\n', '\n', '\n'] <:+: s)

/-! ## Toolkit: trimming a join of trimmed pieces -/


/-- Drop the empty pieces at both ends of a piece list. -/
def dropEdgeEmpty (ps : List Str) : List Str :=
  ((ps.dropWhile (fun q : Str => decide (q = []))).reverse.dropWhile (fun q : Str => decide (q = []))).reverse

/-! ## C3: idempotence of the prompt normalizer -/


/-! ## ExtractedMetadata and the parameter-string parser (src/extraction/png.rs) -/


structure ExtractedMetadata where
  prompt : Option Str
  negative_prompt : Option Str
  parameters : Option Str
  model : Option Str
  seed : Option Str
  steps : Option Str
  cfg_scale : Option Str
  sampler : Option Str
  size : Option Str
  other : List (Str × Str)
deriving Repr, DecidableEq

/-- `ExtractedMetadata::empty()`. -/
def ExtractedMetadata.empty : ExtractedMetadata :=
  ⟨none, none, none, none, none, none, none, none, none, []⟩

/-- One iteration of the `Negative prompt:` loop of `parse_parameters_string`:
`line.trim().strip_prefix("Negative prompt:").unwrap_or("").trim()` is
non-empty exactly when the trimmed line starts with the label and carries
non-empty text after it. -/
def applyNegativeLine (md : ExtractedMetadata) (line : Str) : ExtractedMetadata :=
  let t := rustTrim line
  if List.isPrefixOf (("Negative prompt:").data) t then
    let neg := rustTrim (t.drop (("Negative prompt:").data).length)
    if neg ≠ [] then { md with negative_prompt := some neg } else md
  else md

/-- One iteration of the comma-segment loop of `parse_parameters_string`.
A segment that starts with none of the six labels falls through; the
source's final `else if part.contains("Model hash:")` arm has an empty
body, so it also leaves the record unchanged. -/
def applyParamSegment (md : ExtractedMetadata) (part : Str) : ExtractedMetadata :=
  let p := rustTrim part
  if List.isPrefixOf (("Steps:").data) p then
    { md with steps := some (rustTrim (p.drop (("Steps:").data).length)) }
  else if List.isPrefixOf (("Sampler:").data) p then
    { md with sampler := some (rustTrim (p.drop (("Sampler:").data).length)) }
  else if List.isPrefixOf (("CFG scale:").data) p then
    { md with cfg_scale := some (rustTrim (p.drop (("CFG scale:").data).length)) }
  else if List.isPrefixOf (("Seed:").data) p then
    { md with seed := some (rustTrim (p.drop (("Seed:").data).length)) }
  else if List.isPrefixOf (("Size:").data) p then
    { md with size := some (rustTrim (p.drop (("Size:").data).length)) }
  else if List.isPrefixOf (("Model:").data) p then
    { md with model := some (rustTrim (p.drop (("Model:").data).length)) }
  else md

/-- `parse_parameters_string` from `src/extraction/png.rs`: the first line
becomes the prompt when none is set, every `Negative prompt:` line
overwrites the negative prompt, and the comma-separated segments of the
last line are routed through `applyParamSegment`. -/
def parse_parameters_string (params : Str) (metadata : ExtractedMetadata) :
    ExtractedMetadata :=
  match rustLines params with
  | [] => metadata
  | l0 :: rest =>
    let md1 := if metadata.prompt = none
      then { metadata with prompt := some (rustTrim l0) } else metadata
    let md2 := (l0 :: rest).foldl applyNegativeLine md1
    let paramsLine := (l0 :: rest).getLastD []
    (splitSep ',' paramsLine).foldl applyParamSegment md2

/-! ## ComfyUI workflow parser (src/extraction/comfyui.rs) -/


/-- `str::contains` for a literal pattern. -/
def containsSub (h p : Str) : Bool := decide (p <:+: h)

/-- A `serde_json` number: a non-negative integer (`u64`), a negative
integer (`i64`), or a float; the float is modelled opaquely by its
`f64::to_string` rendering. -/
inductive JNum where
  | uint (n : Nat)
  | nint (i : Int)
  | float (render : Str)

/-- A `serde_json::Value`; object entries are kept in iteration order. -/
inductive Json where
  | null
  | bool (b : Bool)
  | num (n : JNum)
  | str (s : Str)
  | arr (elems : List Json)
  | obj (entries : List (Str × Json))

/-- `Value::as_str`. -/
def jsonAsStr : Json → Option Str
  | Json.str s => some s
  | _ => none

/-- `Value::as_u64`: only a non-negative integer number. -/
def jsonAsU64 : Json → Option Nat
  | Json.num (JNum.uint n) => some n
  | _ => none

def natToStr (n : Nat) : Str := (toString n).data

def intToStr (i : Int) : Str := (toString i).data

/-- `Value::as_f64` followed by `f64::to_string`: any number converts;
an integral value renders without a decimal point (as `f64`'s `Display`
does for integral values in the `u64` range), and a float keeps its own
rendering. -/
def jsonAsF64Str : Json → Option Str
  | Json.num (JNum.uint n) => some (natToStr n)
  | Json.num (JNum.nint i) => some (intToStr i)
  | Json.num (JNum.float r) => some r
  | _ => none

/-- `Value::get` with a string key: a lookup in an object, `None` on any
other value. -/
def jsonGet : Json → Str → Option Json
  | Json.obj entries, key => entries.lookup key
  | _, _ => none

/-- `node.get("inputs").and_then(|i| i.get(key))`. -/
def nodeInput (node : List (Str × Json)) (key : Str) : Option Json :=
  match node.lookup (("inputs").data) with
  | some inputs => jsonGet inputs key
  | none => none

structure ComfyUIWorkflow where
  readable_prompt : Option Str
  negative_prompt : Option Str
  model : Option Str
  seed : Option Str
  steps : Option Str
  cfg_scale : Option Str
  sampler : Option Str
  width : Option Str
  height : Option Str
  lora : Option Str
deriving Repr, DecidableEq

def emptyWorkflow : ComfyUIWorkflow :=
  ⟨none, none, none, none, none, none, none, none, none, none⟩

/-- First half of the `Wildcard`/`Text`/`Prompt` block: `populated_text`
is taken only when no readable prompt is set yet and the text is
non-empty. -/
def promptPopulated (node : List (Str × Json)) (w : ComfyUIWorkflow) :
    ComfyUIWorkflow :=
  match (nodeInput node (("populated_text").data)).bind jsonAsStr with
  | some populatedText =>
    if w.readable_prompt = none ∧ populatedText ≠ [] then
      { w with readable_prompt := some populatedText }
    else w
  | none => w

/-- Second half of the block: `wildcard_text` as fallback when the
readable prompt is still unset. -/
def promptWildcard (node : List (Str × Json)) (w : ComfyUIWorkflow) :
    ComfyUIWorkflow :=
  if w.readable_prompt = none then
    match (nodeInput node (("wildcard_text").data)).bind jsonAsStr with
    | some wildcardText =>
      if wildcardText ≠ [] then { w with readable_prompt := some wildcardText }
      else w
    | none => w
  else w

/-- The `Wildcard`/`Text`/`Prompt` block of the node loop. -/
def promptStep (ct : Str) (node : List (Str × Json)) (w : ComfyUIWorkflow) :
    ComfyUIWorkflow :=
  if containsSub ct (("Wildcard").data) || containsSub ct (("Text").data) ||
      containsSub ct (("Prompt").data) then
    promptWildcard node (promptPopulated node w)
  else w

/-- Model part of the `Loader`/`Checkpoint` block: written when unset. -/
def loaderModel (node : List (Str × Json)) (w : ComfyUIWorkflow) : ComfyUIWorkflow :=
  if w.model = none then
    match (nodeInput node (("ckpt_name").data)).bind jsonAsStr with
    | some ckptName => { w with model := some ckptName }
    | none => w
  else w

/-- Negative-prompt part of the block: written when unset and non-empty. -/
def loaderNegative (node : List (Str × Json)) (w : ComfyUIWorkflow) : ComfyUIWorkflow :=
  if w.negative_prompt = none then
    match (nodeInput node (("negative").data)).bind jsonAsStr with
    | some negative =>
      if negative ≠ [] then { w with negative_prompt := some negative } else w
    | none => w
  else w

/-- LoRA part of the block: written when unset. -/
def loaderLora (node : List (Str × Json)) (w : ComfyUIWorkflow) : ComfyUIWorkflow :=
  if w.lora = none then
    match (nodeInput node (("lora_name").data)).bind jsonAsStr with
    | some loraName => { w with lora := some loraName }
    | none => w
  else w

/-- The `Loader`/`Checkpoint` block: model, negative prompt and LoRA are
each written only when still unset. -/
def loaderStep (ct : Str) (node : List (Str × Json)) (w : ComfyUIWorkflow) :
    ComfyUIWorkflow :=
  if containsSub ct (("Loader").data) || containsSub ct (("Checkpoint").data) then
    loaderLora node (loaderNegative node (loaderModel node w))
  else w

/-- Steps part of the `Sampler` block: written on every match. -/
def samplerSteps (node : List (Str × Json)) (w : ComfyUIWorkflow) : ComfyUIWorkflow :=
  match (nodeInput node (("steps").data)).bind jsonAsU64 with
  | some steps => { w with steps := some (natToStr steps) }
  | none => w

/-- CFG part of the `Sampler` block: written on every match. -/
def samplerCfg (node : List (Str × Json)) (w : ComfyUIWorkflow) : ComfyUIWorkflow :=
  match (nodeInput node (("cfg").data)).bind jsonAsF64Str with
  | some cfg => { w with cfg_scale := some cfg }
  | none => w

/-- Sampler-name part of the `Sampler` block: written on every match. -/
def samplerName (node : List (Str × Json)) (w : ComfyUIWorkflow) : ComfyUIWorkflow :=
  match (nodeInput node (("sampler_name").data)).bind jsonAsStr with
  | some samplerNameText => { w with sampler := some samplerNameText }
  | none => w

/-- Seed part of the `Sampler` block: written on every match. -/
def samplerSeed (node : List (Str × Json)) (w : ComfyUIWorkflow) : ComfyUIWorkflow :=
  match (nodeInput node (("seed").data)).bind jsonAsU64 with
  | some seed => { w with seed := some (natToStr seed) }
  | none => w

/-- The `Sampler` block: steps, cfg, sampler name and seed are written
unconditionally on every match. -/
def samplerStep (ct : Str) (node : List (Str × Json)) (w : ComfyUIWorkflow) :
    ComfyUIWorkflow :=
  if containsSub ct (("Sampler").data) then
    samplerSeed node (samplerName node (samplerCfg node (samplerSteps node w)))
  else w

/-- Width part of the `Latent`/`Empty` block: written on every match. -/
def latentWidth (node : List (Str × Json)) (w : ComfyUIWorkflow) : ComfyUIWorkflow :=
  match (nodeInput node (("width").data)).bind jsonAsU64 with
  | some width => { w with width := some (natToStr width) }
  | none => w

/-- Height part of the `Latent`/`Empty` block: written on every match. -/
def latentHeight (node : List (Str × Json)) (w : ComfyUIWorkflow) : ComfyUIWorkflow :=
  match (nodeInput node (("height").data)).bind jsonAsU64 with
  | some height => { w with height := some (natToStr height) }
  | none => w

/-- The `Latent`/`Empty` block: width and height are written
unconditionally on every match. -/
def latentStep (ct : Str) (node : List (Str × Json)) (w : ComfyUIWorkflow) :
    ComfyUIWorkflow :=
  if containsSub ct (("Latent").data) || containsSub ct (("Empty").data) then
    latentHeight node (latentWidth node w)
  else w

/-- One iteration of the node loop of `parse_comfyui_workflow`. -/
def processNode (w : ComfyUIWorkflow) (nodeValue : Json) : ComfyUIWorkflow :=
  match nodeValue with
  | Json.obj node =>
    match (node.lookup (("class_type").data)).bind jsonAsStr with
    | some ct => latentStep ct node (samplerStep ct node (loaderStep ct node (promptStep ct node w)))
    | none => w
  | _ => w

/-- `parse_comfyui_workflow`, taking the result of `serde_json::from_str`
(`none` models a parse error turned into `Err` by the `?`; `some` models
`Ok`). A non-object document iterates no nodes. -/
def parse_comfyui_workflow (parsed : Option Json) : Option ComfyUIWorkflow :=
  match parsed with
  | none => none
  | some json =>
    some (match json with
      | Json.obj nodes => nodes.foldl (fun w entry => processNode w entry.2) emptyWorkflow
      | _ => emptyWorkflow)

mutual
/-- `find_populated_text_in_json`: first check `inputs.populated_text` of
an object, then recurse into all values (objects in entry order, arrays in
element order) — a pre-order search. -/
def find_populated_text_in_json : Json → Option Str
  | Json.obj map =>
    let direct :=
      match map.lookup (("inputs").data) with
      | some inputs =>
        match jsonGet inputs (("populated_text").data) with
        | some pt =>
          match jsonAsStr pt with
          | some text => if text ≠ [] then some text else none
          | none => none
        | none => none
      | none => none
    match direct with
    | some text => some text
    | none => findPopulatedInEntries map
  | Json.arr elems => findPopulatedInArr elems
  | _ => none

def findPopulatedInEntries : List (Str × Json) → Option Str
  | [] => none
  | (_, v) :: rest =>
    match find_populated_text_in_json v with
    | some t => some t
    | none => findPopulatedInEntries rest

def findPopulatedInArr : List Json → Option Str
  | [] => none
  | v :: rest =>
    match find_populated_text_in_json v with
    | some t => some t
    | none => findPopulatedInArr rest
end


/-- Prompt assignment of the `Ok` branch of `apply_comfyui_to_metadata`:
a readable prompt always overwrites; otherwise the fallback search over
the re-parsed document overwrites when it finds a `populated_text`. -/
def applyWfPrompt (parsed : Option Json) (workflow : ComfyUIWorkflow)
    (md : ExtractedMetadata) : ExtractedMetadata :=
  match workflow.readable_prompt with
  | some prompt => { md with prompt := some prompt }
  | none =>
    match parsed with
    | some json =>
      match find_populated_text_in_json json with
      | some prompt => { md with prompt := some prompt }
      | none => md
    | none => md

def applyWfNegative (workflow : ComfyUIWorkflow) (md : ExtractedMetadata) :
    ExtractedMetadata :=
  match workflow.negative_prompt with
  | some negPrompt =>
    if md.negative_prompt = none then { md with negative_prompt := some negPrompt }
    else md
  | none => md

def applyWfModel (workflow : ComfyUIWorkflow) (md : ExtractedMetadata) :
    ExtractedMetadata :=
  match workflow.model with
  | some model => if md.model = none then { md with model := some model } else md
  | none => md

def applyWfSeed (workflow : ComfyUIWorkflow) (md : ExtractedMetadata) :
    ExtractedMetadata :=
  match workflow.seed with
  | some seed => if md.seed = none then { md with seed := some seed } else md
  | none => md

def applyWfSteps (workflow : ComfyUIWorkflow) (md : ExtractedMetadata) :
    ExtractedMetadata :=
  match workflow.steps with
  | some steps => if md.steps = none then { md with steps := some steps } else md
  | none => md

def applyWfCfgScale (workflow : ComfyUIWorkflow) (md : ExtractedMetadata) :
    ExtractedMetadata :=
  match workflow.cfg_scale with
  | some cfgScale =>
    if md.cfg_scale = none then { md with cfg_scale := some cfgScale } else md
  | none => md

def applyWfSampler (workflow : ComfyUIWorkflow) (md : ExtractedMetadata) :
    ExtractedMetadata :=
  match workflow.sampler with
  | some sampler => if md.sampler = none then { md with sampler := some sampler } else md
  | none => md

def applyWfSize (workflow : ComfyUIWorkflow) (md : ExtractedMetadata) :
    ExtractedMetadata :=
  match workflow.width, workflow.height with
  | some width, some height =>
    if md.size = none then { md with size := some (width ++ (("x").data) ++ height) }
    else md
  | _, _ => md

def applyWfLora (workflow : ComfyUIWorkflow) (md : ExtractedMetadata) :
    ExtractedMetadata :=
  match workflow.lora with
  | some lora => { md with other := md.other ++ [((("lora").data), lora)] }
  | none => md

/-- `apply_comfyui_to_metadata`: both the parser call and the fallback
re-parse act on the same input string, so both are fed the same `parsed`
value (serde parsing is deterministic). -/
def apply_comfyui_to_metadata (parsed : Option Json) (metadata : ExtractedMetadata) :
    ExtractedMetadata :=
  match parse_comfyui_workflow parsed with
  | some workflow =>
    applyWfLora workflow (applyWfSize workflow (applyWfSampler workflow
      (applyWfCfgScale workflow (applyWfSteps workflow (applyWfSeed workflow
        (applyWfModel workflow (applyWfNegative workflow
          (applyWfPrompt parsed workflow metadata))))))))
  | none =>
    match parsed with
    | some json =>
      match find_populated_text_in_json json with
      | some prompt =>
        if metadata.prompt = none then { metadata with prompt := some prompt }
        else metadata
      | none => metadata
    | none => metadata

/-! ## Write-policy lemmas for the workflow node loop -/


/-! ## Set-once lemmas for apply_comfyui_to_metadata -/


/-- The workflow produced by `parse_comfyui_workflow` on a successfully
parsed document. -/
def wfOf (j : Json) : ComfyUIWorkflow :=
  match j with
  | Json.obj nodes => nodes.foldl (fun w entry => processNode w entry.2) emptyWorkflow
  | _ => emptyWorkflow

/-- A concrete `KSampler` node used to instantiate the write-policy
theorem. -/
def wSamplerNodeEntries : List (Str × Json) :=
  [((("class_type").data), Json.str (("KSampler").data)),
   ((("inputs").data), Json.obj [((("steps").data), Json.num (JNum.uint 20))])]

/-- A concrete two-node workflow document: a wildcard-processor node with
a populated text, then a sampler node with 30 steps. -/
def c8Doc : Json := Json.obj
  [((("1").data), Json.obj
     [((("class_type").data), Json.str (("WildcardProcessor").data)),
      ((("inputs").data), Json.obj
        [((("populated_text").data), Json.str (("new").data))])]),
   ((("2").data), Json.obj
     [((("class_type").data), Json.str (("KSampler").data)),
      ((("inputs").data), Json.obj [((("steps").data), Json.num (JNum.uint 30))])])]

/-- Metadata that already holds a prompt and a step count. -/
def c8Md : ExtractedMetadata :=
  { ExtractedMetadata.empty with
    prompt := some (("old").data)
    steps := some (("20").data) }

/-! ## PNG text chunks (`src/extraction/png.rs`) -/


/-- The Unicode replacement character emitted by `String::from_utf8_lossy`. -/
def utf8Repl : Char := Char.ofNat 0xFFFD

/-- A UTF-8 continuation byte. -/
def utf8Cont (c : Nat) : Bool := decide (0x80 ≤ c ∧ c ≤ 0xBF)

/-- Valid second byte after the lead byte `b` of a 3- or 4-byte sequence
(the restricted ranges exclude overlong forms, surrogates and values above
U+10FFFF, as Rust's UTF-8 validation does). -/
def utf8Sec (b c : Nat) : Bool :=
  if b = 0xE0 then decide (0xA0 ≤ c ∧ c ≤ 0xBF)
  else if b = 0xED then decide (0x80 ≤ c ∧ c ≤ 0x9F)
  else if b = 0xF0 then decide (0x90 ≤ c ∧ c ≤ 0xBF)
  else if b = 0xF4 then decide (0x80 ≤ c ∧ c ≤ 0x8F)
  else decide (0x80 ≤ c ∧ c ≤ 0xBF)

/-- `String::from_utf8_lossy` over a byte list: each maximal invalid
subpart (in the sense of the Unicode substitution of maximal subparts,
which Rust implements) becomes one U+FFFD. -/
def utf8Lossy : List Nat → Str
  | [] => []
  | b :: rest =>
    if b < 0x80 then Char.ofNat b :: utf8Lossy rest
    else if 0xC2 ≤ b ∧ b ≤ 0xDF then
      match hr : rest with
      | [] => [utf8Repl]
      | c :: rest2 =>
        if utf8Cont c then
          Char.ofNat ((b - 0xC0) * 0x40 + (c - 0x80)) :: utf8Lossy rest2
        else utf8Repl :: utf8Lossy rest
    else if 0xE0 ≤ b ∧ b ≤ 0xEF then
      match hr : rest with
      | [] => [utf8Repl]
      | c :: rest2 =>
        if utf8Sec b c then
          match hr2 : rest2 with
          | [] => [utf8Repl]
          | d :: rest3 =>
            if utf8Cont d then
              Char.ofNat ((b - 0xE0) * 0x1000 + (c - 0x80) * 0x40 + (d - 0x80)) ::
                utf8Lossy rest3
            else utf8Repl :: utf8Lossy rest2
        else utf8Repl :: utf8Lossy rest
    else if 0xF0 ≤ b ∧ b ≤ 0xF4 then
      match hr : rest with
      | [] => [utf8Repl]
      | c :: rest2 =>
        if utf8Sec b c then
          match hr2 : rest2 with
          | [] => [utf8Repl]
          | d :: rest3 =>
            if utf8Cont d then
              match hr3 : rest3 with
              | [] => [utf8Repl]
              | e :: rest4 =>
                if utf8Cont e then
                  Char.ofNat ((b - 0xF0) * 0x40000 + (c - 0x80) * 0x1000 +
                    (d - 0x80) * 0x40 + (e - 0x80)) :: utf8Lossy rest4
                else utf8Repl :: utf8Lossy rest3
            else utf8Repl :: utf8Lossy rest2
        else utf8Repl :: utf8Lossy rest
    else utf8Repl :: utf8Lossy rest
termination_by l => l.length
decreasing_by
  all_goals simp_wf
  all_goals (try simp_all [List.length_cons])
  all_goals omega

/-- `u32::from_be_bytes` over four bytes read at `o` (always in bounds at
every call site, guarded by the length checks). -/
def readBE32 (data : List Nat) (o : Nat) : Nat :=
  data.getD o 0 * 0x1000000 + data.getD (o + 1) 0 * 0x10000 +
    data.getD (o + 2) 0 * 0x100 + data.getD (o + 3) 0

/-- The slice `data[s..e]`. -/
def pngSlice (data : List Nat) (s e : Nat) : List Nat := (data.take e).drop s

/-- The `while` loop of `parse_png_text_chunks`, by offset. -/
def pngLoop (data : List Nat) (offset : Nat) : List (Str × Str) :=
  if h1 : offset < data.length then
    if offset + 8 > data.length then []
    else
      let length := readBE32 data offset
      if offset + 4 + 4 > data.length then []
      else
        let chunkType := utf8Lossy (pngSlice data (offset + 4) (offset + 4 + 4))
        if chunkType = ("IEND").data then []
        else if offset + 8 + length + 4 > data.length then []
        else
          let rest := pngLoop data (offset + 8 + length + 4)
          if chunkType = ("tEXt").data ∧ 0 < length then
            let chunkData := pngSlice data (offset + 8) (offset + 8 + length)
            match chunkData.findIdx? (fun b => b == 0) with
            | some nullPos =>
              if nullPos + 1 < chunkData.length then
                (utf8Lossy (chunkData.take nullPos),
                  utf8Lossy (chunkData.drop (nullPos + 1))) :: rest
              else rest
            | none => rest
          else rest
  else []
termination_by data.length - offset
decreasing_by simp_wf; omega

/-- `parse_png_text_chunks`: skip the 8-byte signature and run the chunk
loop; the function always returns `Ok`. -/
def parse_png_text_chunks (data : List Nat) : Option (List (Str × Str)) :=
  some (pngLoop data 8)

/-- The same chunk traversal, collecting the type and raw payload of
every chunk it passes (the reference walk the claim is compared with). -/
def pngChunkWalk (data : List Nat) (offset : Nat) : List (Str × List Nat) :=
  if h1 : offset < data.length then
    if offset + 8 > data.length then []
    else
      let length := readBE32 data offset
      if offset + 4 + 4 > data.length then []
      else
        let chunkType := utf8Lossy (pngSlice data (offset + 4) (offset + 4 + 4))
        if chunkType = ("IEND").data then []
        else if offset + 8 + length + 4 > data.length then []
        else
          (chunkType, pngSlice data (offset + 8) (offset + 8 + length)) ::
            pngChunkWalk data (offset + 8 + length + 4)
  else []
termination_by data.length - offset
decreasing_by simp_wf; omega

/-- Per-chunk decoding rule of the claim: a `tEXt` chunk with non-empty
payload whose first NUL byte is not the last byte yields the pair of
lossily decoded halves; every other chunk yields nothing. -/
def decodeTEXt (chunk : Str × List Nat) : Option (Str × Str) :=
  if chunk.1 = ("tEXt").data ∧ 0 < chunk.2.length then
    match chunk.2.findIdx? (fun b => b == 0) with
    | some nullPos =>
      if nullPos + 1 < chunk.2.length then
        some (utf8Lossy (chunk.2.take nullPos), utf8Lossy (chunk.2.drop (nullPos + 1)))
      else none
    | none => none
  else none

/-- A PNG buffer with two `tEXt` chunks, `("parameters", "X")` then
`("prompt", "Y")`: signature, then length 12 / `tEXt` /
`parameters\0X` / CRC, then length 8 / `tEXt` / `prompt\0Y` / CRC. -/
def c5TwoChunkBuf : List Nat :=
  [137, 80, 78, 71, 13, 10, 26, 10] ++
  [0, 0, 0, 12] ++ [116, 69, 88, 116] ++
  [112, 97, 114, 97, 109, 101, 116, 101, 114, 115, 0, 88] ++ [0, 0, 0, 0] ++
  [0, 0, 0, 8] ++ [116, 69, 88, 116] ++
  [112, 114, 111, 109, 112, 116, 0, 89] ++ [0, 0, 0, 0]

/-- A PNG buffer with one `tEXt` chunk whose 2-byte payload is `k\0`:
the first NUL byte is the payload's last byte. -/
def c5NulEndBuf : List Nat :=
  [137, 80, 78, 71, 13, 10, 26, 10] ++
  [0, 0, 0, 2] ++ [116, 69, 88, 116] ++ [107, 0] ++ [0, 0, 0, 0]

/-! ## WebP chunks and XMP scanning (`src/extraction/webp.rs`) -/


/-- `u32::from_le_bytes` over four bytes read at `o`. -/
def readLE32 (data : List Nat) (o : Nat) : Nat :=
  data.getD o 0 + data.getD (o + 1) 0 * 0x100 +
    data.getD (o + 2) 0 * 0x10000 + data.getD (o + 3) 0 * 0x1000000

/-- The bytes of `b"RIFF"`. -/
def riffBytes : List Nat := [82, 73, 70, 70]

/-- The bytes of `b"WEBP"`. -/
def webpBytes : List Nat := [87, 69, 66, 80]

/-- `String::from_utf8` (strict): `none` on any invalid byte sequence. -/
def utf8Strict : List Nat → Option Str
  | [] => some []
  | b :: rest =>
    if b < 0x80 then (utf8Strict rest).map (fun s => Char.ofNat b :: s)
    else if 0xC2 ≤ b ∧ b ≤ 0xDF then
      match rest with
      | [] => none
      | c :: rest2 =>
        if utf8Cont c then
          (utf8Strict rest2).map (fun s => Char.ofNat ((b - 0xC0) * 0x40 + (c - 0x80)) :: s)
        else none
    else if 0xE0 ≤ b ∧ b ≤ 0xEF then
      match rest with
      | [] => none
      | c :: rest2 =>
        if utf8Sec b c then
          match rest2 with
          | [] => none
          | d :: rest3 =>
            if utf8Cont d then
              (utf8Strict rest3).map (fun s =>
                Char.ofNat ((b - 0xE0) * 0x1000 + (c - 0x80) * 0x40 + (d - 0x80)) :: s)
            else none
        else none
    else if 0xF0 ≤ b ∧ b ≤ 0xF4 then
      match rest with
      | [] => none
      | c :: rest2 =>
        if utf8Sec b c then
          match rest2 with
          | [] => none
          | d :: rest3 =>
            if utf8Cont d then
              match rest3 with
              | [] => none
              | e :: rest4 =>
                if utf8Cont e then
                  (utf8Strict rest4).map (fun s =>
                    Char.ofNat ((b - 0xF0) * 0x40000 + (c - 0x80) * 0x1000 +
                      (d - 0x80) * 0x40 + (e - 0x80)) :: s)
                else none
            else none
        else none
    else none
termination_by l => l.length
decreasing_by
  all_goals simp_wf
  all_goals (try simp_all [List.length_cons])
  all_goals omega

/-- `str::find`: index of the first occurrence of `p` in `h` (`some 0`
for the empty pattern, as in Rust). Indices count characters; on the
valid UTF-8 strings these functions receive, Rust's byte indices always
sit at character boundaries, so the slices they delimit carry the same
text. -/
def findSub (p : Str) (h : Str) : Option Nat :=
  if p <+: h then some 0
  else
    match h with
    | [] => none
    | _ :: t => Option.map (fun n => n + 1) (findSub p t)

/-- The search patterns of `parse_xmp_for_prompts`. -/
def dcOpenTag : Str := ("<dc:description>").data

def dcCloseTag : Str := ("</dc:description>").data

def rdfDescTag : Str := ("rdf:Description").data

def dcAttrKey : Str := ("dc:description=\"").data

def quoteStr : Str := ("\"").data

/-- First block of `parse_xmp_for_prompts`: the
`<dc:description>...</dc:description>` element scan. -/
def xmpElemScan (xmp : Str) (chunks : List (Str × Str)) : List (Str × Str) :=
  match findSub dcOpenTag xmp with
  | some start =>
    match findSub dcCloseTag (xmp.drop start) with
    | some endRel =>
      let desc := (xmp.take (start + endRel)).drop (start + 16)
      if desc ≠ [] then chunks ++ [((("description").data), desc)] else chunks
    | none => chunks
  | none => chunks

/-- Second block: the `rdf:Description` element with a
`dc:description="..."` attribute. -/
def xmpAttrScan (xmp : Str) (chunks : List (Str × Str)) : List (Str × Str) :=
  match findSub rdfDescTag xmp with
  | some start =>
    match findSub dcAttrKey (xmp.drop start) with
    | some descStart =>
      let attrStart := start + descStart + 16
      match findSub quoteStr (xmp.drop attrStart) with
      | some descEnd =>
        let desc := (xmp.take (attrStart + descEnd)).drop attrStart
        if desc ≠ [] then chunks ++ [((("description").data), desc)] else chunks
      | none => chunks
    | none => chunks
  | none => chunks

/-- `parse_xmp_for_prompts`: both scans run, each appending its push to
the borrowed `chunks` vector. -/
def parse_xmp_for_prompts (xmp : Str) (chunks : List (Str × Str)) : List (Str × Str) :=
  xmpAttrScan xmp (xmpElemScan xmp chunks)

/-- The `while` loop of `parse_webp_chunks`: chunk type, little-endian
size, `EXIF`/`XMP ` handling, and even-size padding. -/
def webpLoop (data : List Nat) (offset : Nat) : List (Str × Str) :=
  if h1 : offset < data.length then
    if offset + 8 > data.length then []
    else
      let chunkType := utf8Lossy (pngSlice data offset (offset + 4))
      if offset + 4 + 4 > data.length then []
      else
        let length := readLE32 data (offset + 4)
        if offset + 8 + length > data.length then []
        else
          let payload := pngSlice data (offset + 8) (offset + 8 + length)
          let here :=
            if chunkType = ("EXIF").data then
              match utf8Strict payload with
              | some text => [((("EXIF").data), text)]
              | none => []
            else if chunkType = ("XMP ").data then
              match utf8Strict payload with
              | some text => parse_xmp_for_prompts text [] ++ [((("XMP").data), text)]
              | none => []
            else []
          here ++ webpLoop data (offset + 8 + length + (if length % 2 = 0 then 0 else 1))
  else []
termination_by data.length - offset
decreasing_by
  simp_wf
  split <;> omega

/-- `parse_webp_chunks`: the 12-byte `RIFF`+size+`WEBP` header check
(each failure returns `Ok` with an empty vector), then the chunk loop. -/
def parse_webp_chunks (data : List Nat) : Option (List (Str × Str)) :=
  if data.length < 12 then some []
  else if pngSlice data 0 4 ≠ riffBytes then some []
  else if data.length < 12 ∨ pngSlice data 8 12 ≠ webpBytes then some []
  else some (webpLoop data 12)

/-- The element-scan description of the claim: the text strictly between
the first `<dc:description>` and the first `</dc:description>` after it,
when non-empty. -/
def elemDesc (xmp : Str) : Option Str :=
  match findSub dcOpenTag xmp with
  | some start =>
    match findSub dcCloseTag (xmp.drop start) with
    | some endRel =>
      let desc := (xmp.take (start + endRel)).drop (start + 16)
      if desc ≠ [] then some desc else none
    | none => none
  | none => none

/-- The attribute-scan description of the claim: the text of the first
`dc:description="..."` attribute after the first `rdf:Description`, when
non-empty. -/
def attrDesc (xmp : Str) : Option Str :=
  match findSub rdfDescTag xmp with
  | some start =>
    match findSub dcAttrKey (xmp.drop start) with
    | some descStart =>
      let attrStart := start + descStart + 16
      match findSub quoteStr (xmp.drop attrStart) with
      | some descEnd =>
        let desc := (xmp.take (attrStart + descEnd)).drop attrStart
        if desc ≠ [] then some desc else none
      | none => none
    | none => none
  | none => none

/-- The XMP payload used to refute C9: an `rdf:Description` carrying a
`dc:description="B"` attribute, followed by a `<dc:description>A</dc:description>`
element. -/
def c9Xmp : Str :=
  ("<rdf:Description dc:description=\"B\"><dc:description>A</dc:description>").data

/-! ## Tag extraction (`src/extraction/tag_extractor.rs`) -/


/-- One regex alternative `w1.*w2.*…*wk` matches a line iff the literal
words occur in order; the leftmost-first scan decides existence. -/
def matchSeqIn : List Str → Str → Bool
  | [], _ => true
  | w :: ws, s =>
    match findSub w s with
    | some i => matchSeqIn ws (s.drop (i + w.length))
    | none => false

/-- `Regex::is_match` for the shapes used by the tag extractor:
alternations of literal words separated by `.*`. Since `.` does not match
a newline, a match lies within a single line. -/
def regexIsMatch (alts : List (List Str)) (s : Str) : Bool :=
  (splitSep '\n' s).any (fun line => alts.any (fun alt => matchSeqIn alt line))

/-- `build_style_patterns`. -/
def stylePatterns : List (List (List Str)) :=
  [[[("photorealistic").data], [("photo").data, ("real").data]],
   [[("anime").data], [("manga").data]],
   [[("oil").data, ("paint").data], [("oil painting").data]],
   [[("watercolor").data], [("water").data, ("color").data]],
   [[("digital").data, ("art").data], [("digital art").data]],
   [[("sketch").data], [("drawing").data]],
   [[("3d").data, ("render").data], [("3d render").data]],
   [[("pixel").data, ("art").data], [("pixel art").data]],
   [[("abstract").data]],
   [[("impressionist").data], [("impressionism").data]],
   [[("surreal").data], [("surrealism").data]],
   [[("minimalist").data], [("minimalism").data]]]

/-- `build_quality_patterns`. -/
def qualityPatterns : List (List (List Str)) :=
  [[[("masterpiece").data], [("best").data, ("quality").data]],
   [[("ultra").data, ("detail").data], [("ultra detailed").data]],
   [[("high").data, ("detail").data], [("highly detailed").data]],
   [[("8k").data], [("4k").data], [("2k").data]],
   [[("professional").data], [("pro").data]],
   [[("sharp").data, ("focus").data], [("sharp focus").data]],
   [[("high").data, ("resolution").data], [("high res").data]]]

/-- `build_technique_patterns`. -/
def techniquePatterns : List (List (List Str)) :=
  [[[("cinematic").data, ("light").data], [("cinematic lighting").data]],
   [[("depth").data, ("of").data, ("field").data], [("dof").data], [("bokeh").data]],
   [[("soft").data, ("light").data], [("soft lighting").data]],
   [[("dramatic").data, ("light").data], [("dramatic lighting").data]],
   [[("golden").data, ("hour").data], [("golden hour").data]],
   [[("blue").data, ("hour").data], [("blue hour").data]],
   [[("hdr").data], [("high").data, ("dynamic").data, ("range").data]],
   [[("wide").data, ("angle").data], [("wide angle").data]],
   [[("macro").data], [("close").data, ("up").data]],
   [[("long").data, ("exposure").data], [("long exposure").data]]]

/-- The `common_subjects` table of `looks_like_subject`. -/
def commonSubjects : List Str :=
  [("portrait").data, ("landscape").data, ("animal").data, ("nature").data,
   ("city").data, ("building").data, ("architecture").data, ("person").data,
   ("face").data, ("woman").data, ("man").data, ("child").data,
   ("flower").data, ("tree").data, ("mountain").data, ("ocean").data,
   ("sky").data, ("sunset").data, ("sunrise").data, ("forest").data,
   ("desert").data, ("beach").data, ("river").data, ("lake").data,
   ("bird").data, ("cat").data, ("dog").data, ("car").data, ("house").data,
   ("street").data, ("bridge").data, ("castle").data, ("tower").data]

/-- `looks_like_subject`: substring containment against the table. -/
def looksLikeSubject (text : Str) : Bool :=
  commonSubjects.any (fun subj => containsSub text subj)

/-- `str::to_lowercase`, restricted to the one-to-one character mapping
(ASCII and the simple case foldings); the claim proved about the
extractor does not depend on which case mapping is used. -/
def lowercaseStr (s : Str) : Str := s.map Char.toLower

/-- `str::len`: the UTF-8 byte length. -/
def utf8Len (s : Str) : Nat := (s.map Char.utf8Size).sum

/-- The shared push-if-unseen step: when the guard holds and the name is
not in `seen_tags`, append the tag and record the name. -/
def pushIfNew (name cat : Str) (conf : ℚ) (ok : Bool)
    (st : List (Str × Str × ℚ) × List Str) : List (Str × Str × ℚ) × List Str :=
  if ok = true ∧ ¬ name ∈ st.2 then (st.1 ++ [(name, cat, conf)], st.2 ++ [name])
  else st

/-- The body of the positive-prompt segment loop: style, quality and
technique pattern loops, then the subject heuristic. -/
def segStep (st : List (Str × Str × ℚ) × List Str) (segment : Str) :
    List (Str × Str × ℚ) × List Str :=
  let normalized := lowercaseStr segment
  let st1 := stylePatterns.foldl
    (fun s pat => pushIfNew normalized (("style").data) (0.8 : ℚ)
      (regexIsMatch pat normalized) s) st
  let st2 := qualityPatterns.foldl
    (fun s pat => pushIfNew normalized (("quality").data) (0.9 : ℚ)
      (regexIsMatch pat normalized) s) st1
  let st3 := techniquePatterns.foldl
    (fun s pat => pushIfNew normalized (("technique").data) (0.85 : ℚ)
      (regexIsMatch pat normalized) s) st2
  pushIfNew normalized (("subject").data) (0.7 : ℚ)
    (looksLikeSubject normalized && decide (2 < utf8Len normalized)) st3

/-- The body of the negative-prompt segment loop. -/
def negStep (st : List (Str × Str × ℚ) × List Str) (segment : Str) :
    List (Str × Str × ℚ) × List Str :=
  let normalized := lowercaseStr segment
  pushIfNew normalized (("negative").data) (0.8 : ℚ)
    (decide (2 < utf8Len normalized)) st

/-- `TagExtractor::extract_from_prompt` (always returns `Ok`): tags are
`(name, category, confidence)` triples. -/
def extract_from_prompt (prompt : Str) (negative_prompt : Option Str) :
    Option (List (Str × Str × ℚ)) :=
  let st1 := (PromptNormalizer.extract_segments prompt).foldl segStep ([], [])
  let st2 :=
    match negative_prompt with
    | some neg => (PromptNormalizer.extract_segments neg).foldl negStep st1
    | none => st1
  some st2.1

/-- The loop invariant: tag names are distinct, and every emitted name is
recorded in `seen_tags`. -/
def TagInv (st : List (Str × Str × ℚ) × List Str) : Prop :=
  (st.1.map (fun t => t.1)).Nodup ∧ ∀ n ∈ st.1.map (fun t => t.1), n ∈ st.2

theorem head?_dropWhile_false {α : Type _} {p : α → Bool} {l : List α} {d : α}
    (h : (l.dropWhile p).head? = some d) : p d = false := by
  induction l with
  | nil => simp [List.dropWhile] at h
  | cons c t ih =>
    rw [List.dropWhile_cons] at h
    split at h
    · exact ih h
    · simp_all

theorem dropWhile_suffix {α : Type _} (p : α → Bool) (l : List α) : l.dropWhile p <:+ l :=
  ⟨l.takeWhile p, List.takeWhile_append_dropWhile p l⟩

theorem revDropWhileRev_prefix_self {α : Type _} (p : α → Bool) (l : List α) :
    (l.reverse.dropWhile p).reverse <+: l := by
  have h : (l.reverse.dropWhile p) <:+ l.reverse := dropWhile_suffix _ _
  rw [← List.reverse_reverse (l.reverse.dropWhile p)] at h
  exact (@List.reverse_suffix _ ((l.reverse.dropWhile p).reverse) l).1 h

theorem dropLeadingWs_suffix (s : Str) : dropLeadingWs s <:+ s :=
  dropWhile_suffix _ s

theorem dropTrailingWs_prefix_self (s : Str) : dropTrailingWs s <+: s := by
  have h : (s.reverse.dropWhile rustIsWhitespace) <:+ s.reverse :=
    dropWhile_suffix _ _
  rw [← List.reverse_reverse (s.reverse.dropWhile rustIsWhitespace)] at h
  exact (@List.reverse_suffix _ ((s.reverse.dropWhile rustIsWhitespace).reverse) s).1 h

theorem rustTrim_infix_self (s : Str) : rustTrim s <:+: s :=
  List.IsInfix.trans (dropTrailingWs_prefix_self _).isInfix (dropLeadingWs_suffix s).isInfix

theorem dropWhile_eq_self_iff {α : Type _} (p : α → Bool) (l : List α) :
    l.dropWhile p = l ↔ ∀ c, l.head? = some c → p c = false := by
  cases l with
  | nil => simp [List.dropWhile]
  | cons c t =>
    rw [List.dropWhile_cons]
    constructor
    · intro h d hd
      have hdc : c = d := by simpa using hd
      subst hdc
      by_contra hp
      simp only [Bool.not_eq_false] at hp
      rw [if_pos hp] at h
      have hlen := congrArg List.length h
      have hle := (List.dropWhile_sublist (l := t) p).length_le
      simp at hlen
      omega
    · intro h
      have hc := h c rfl
      simp [hc]

theorem length_rustTrim_le (s : Str) : (rustTrim s).length ≤ s.length :=
  (rustTrim_infix_self s).sublist.length_le

theorem dropLeadingWs_of_trim_fixed {s : Str} (h : rustTrim s = s) :
    dropLeadingWs s = s := by
  have h1 : (dropTrailingWs (dropLeadingWs s)).length ≤ (dropLeadingWs s).length :=
    (dropTrailingWs_prefix_self _).sublist.length_le
  have h2 : (dropLeadingWs s).length ≤ s.length :=
    (dropLeadingWs_suffix s).sublist.length_le
  have h3 : (rustTrim s).length = s.length := by rw [h]
  unfold rustTrim at h3
  have hlen : (dropLeadingWs s).length = s.length := by omega
  exact (dropLeadingWs_suffix s).sublist.eq_of_length hlen

theorem dropTrailingWs_of_trim_fixed {s : Str} (h : rustTrim s = s) :
    dropTrailingWs s = s := by
  have hl := dropLeadingWs_of_trim_fixed h
  unfold rustTrim at h
  rw [hl] at h
  exact h

theorem trim_fixed_head {s : Str} (h : rustTrim s = s) {c : Char}
    (hc : s.head? = some c) : rustIsWhitespace c = false := by
  have hl := dropLeadingWs_of_trim_fixed h
  exact ((dropWhile_eq_self_iff _ s).1 hl) c hc

theorem trim_fixed_last {s : Str} (h : rustTrim s = s) {c : Char}
    (hc : s.getLast? = some c) : rustIsWhitespace c = false := by
  have ht := dropTrailingWs_of_trim_fixed h
  unfold dropTrailingWs at ht
  have : s.reverse.dropWhile rustIsWhitespace = s.reverse := by
    have := congrArg List.reverse ht
    simpa using this
  refine ((dropWhile_eq_self_iff _ s.reverse).1 this) c ?_
  rw [List.head?_reverse]
  exact hc

theorem rustTrim_eq_self_of (s : Str)
    (hh : ∀ c, s.head? = some c → rustIsWhitespace c = false)
    (hl : ∀ c, s.getLast? = some c → rustIsWhitespace c = false) :
    rustTrim s = s := by
  have h1 : dropLeadingWs s = s := (dropWhile_eq_self_iff _ s).2 hh
  have h2 : dropTrailingWs s = s := by
    unfold dropTrailingWs
    have : s.reverse.dropWhile rustIsWhitespace = s.reverse := by
      refine (dropWhile_eq_self_iff _ s.reverse).2 ?_
      intro c hc
      rw [List.head?_reverse] at hc
      exact hl c hc
    rw [this, List.reverse_reverse]
  unfold rustTrim
  rw [h1, h2]

theorem rustTrim_idem (s : Str) : rustTrim (rustTrim s) = rustTrim s := by
  refine rustTrim_eq_self_of _ ?_ ?_
  · intro c hc
    unfold rustTrim at hc
    obtain ⟨t, ht⟩ := dropTrailingWs_prefix_self (dropLeadingWs s)
    have hh : (dropLeadingWs s).head? = some c := by
      rw [← ht]
      cases hcase : dropTrailingWs (dropLeadingWs s) with
      | nil => rw [hcase] at hc; simp at hc
      | cons d rest =>
        rw [hcase] at hc
        simp at hc
        simp [hc]
    exact head?_dropWhile_false hh
  · intro c hc
    unfold rustTrim at hc
    unfold dropTrailingWs at hc
    rw [List.getLast?_reverse] at hc
    exact head?_dropWhile_false hc

theorem splitSep_ne_nil (sep : Char) (s : Str) : splitSep sep s ≠ [] := by
  cases s with
  | nil => simp [splitSep]
  | cons c rest =>
    rw [splitSep]
    cases h : splitSep sep rest with
    | nil => simp
    | cons p ps => by_cases hcs : c = sep <;> simp [hcs]

theorem splitSep_cons_sep (sep : Char) (rest : Str) :
    splitSep sep (sep :: rest) = [] :: splitSep sep rest := by
  rw [splitSep]
  cases h : splitSep sep rest with
  | nil => exact absurd h (splitSep_ne_nil sep rest)
  | cons p ps => simp

theorem splitSep_cons_ne (sep c : Char) (rest : Str) (hc : ¬c = sep) {p : Str}
    {ps : List Str} (h : splitSep sep rest = p :: ps) :
    splitSep sep (c :: rest) = (c :: p) :: ps := by
  rw [splitSep, h]
  simp [hc]

theorem joinNL_cons_head (c : Char) (q : Str) (qs : List Str) :
    joinNL ((c :: q) :: qs) = c :: joinNL (q :: qs) := by
  cases qs <;> rfl

theorem joinNL_nil_cons (q : Str) (qs : List Str) :
    joinNL ([] :: q :: qs) = '\n' :: joinNL (q :: qs) := rfl

theorem joinNL_splitSep (s : Str) : joinNL (splitSep '\n' s) = s := by
  induction s with
  | nil => rfl
  | cons c rest ih =>
    obtain ⟨p, ps, h⟩ : ∃ p ps, splitSep '\n' rest = p :: ps := by
      cases hh : splitSep '\n' rest with
      | nil => exact absurd hh (splitSep_ne_nil _ _)
      | cons p ps => exact ⟨p, ps, rfl⟩
    by_cases hc : c = '\n'
    · subst hc
      rw [splitSep_cons_sep, h, joinNL_nil_cons, ← h, ih]
    · rw [splitSep_cons_ne _ _ _ hc h, joinNL_cons_head, ← h, ih]

theorem not_mem_of_mem_splitSep {sep : Char} {s q : Str}
    (hq : q ∈ splitSep sep s) : sep ∉ q := by
  induction s generalizing q with
  | nil =>
    simp [splitSep] at hq
    subst hq
    simp
  | cons c rest ih =>
    obtain ⟨p, ps, h⟩ : ∃ p ps, splitSep sep rest = p :: ps := by
      cases hh : splitSep sep rest with
      | nil => exact absurd hh (splitSep_ne_nil _ _)
      | cons p ps => exact ⟨p, ps, rfl⟩
    by_cases hc : c = sep
    · subst hc
      rw [splitSep_cons_sep] at hq
      rcases List.mem_cons.1 hq with h1 | h1
      · subst h1; simp
      · exact ih h1
    · rw [splitSep_cons_ne _ _ _ hc h] at hq
      rcases List.mem_cons.1 hq with h1 | h1
      · subst h1
        intro hmem
        rcases List.mem_cons.1 hmem with h2 | h2
        · exact hc h2.symm
        · exact ih (h ▸ List.mem_cons_self p ps) h2
      · exact ih (h ▸ List.mem_cons_of_mem p h1)

theorem splitSep_head_prefix_self {sep : Char} {s p : Str} {ps : List Str}
    (h : splitSep sep s = p :: ps) : p <+: s := by
  induction s generalizing p ps with
  | nil =>
    simp [splitSep] at h
    simp [h.1]
  | cons c rest ih =>
    obtain ⟨p', ps', h'⟩ : ∃ p' ps', splitSep sep rest = p' :: ps' := by
      cases hh : splitSep sep rest with
      | nil => exact absurd hh (splitSep_ne_nil _ _)
      | cons a b => exact ⟨a, b, rfl⟩
    by_cases hc : c = sep
    · subst hc
      rw [splitSep_cons_sep] at h
      have : p = [] := by simpa using congrArg List.head? h.symm
      simp [this]
    · rw [splitSep_cons_ne _ _ _ hc h'] at h
      have hp : p = c :: p' := by simpa using congrArg List.head? h.symm
      subst hp
      obtain ⟨t, ht⟩ := ih h'
      exact ⟨t, by rw [List.cons_append, ht]⟩

theorem mem_splitSep_infix_self {sep : Char} {s q : Str}
    (hq : q ∈ splitSep sep s) : q <:+: s := by
  induction s generalizing q with
  | nil =>
    simp [splitSep] at hq
    simp [hq]
  | cons c rest ih =>
    obtain ⟨p, ps, h⟩ : ∃ p ps, splitSep sep rest = p :: ps := by
      cases hh : splitSep sep rest with
      | nil => exact absurd hh (splitSep_ne_nil _ _)
      | cons a b => exact ⟨a, b, rfl⟩
    by_cases hc : c = sep
    · subst hc
      rw [splitSep_cons_sep] at hq
      rcases List.mem_cons.1 hq with h1 | h1
      · simp [h1]
      · exact List.infix_cons_iff.2 (Or.inr (ih h1))
    · rw [splitSep_cons_ne _ _ _ hc h] at hq
      rcases List.mem_cons.1 hq with h1 | h1
      · subst h1
        exact (splitSep_head_prefix_self (splitSep_cons_ne _ _ _ hc h)).isInfix
      · exact List.infix_cons_iff.2
          (Or.inr (ih (h ▸ List.mem_cons_of_mem p h1)))

theorem splitSep_single {sep : Char} {q : Str} (h : sep ∉ q) :
    splitSep sep q = [q] := by
  induction q with
  | nil => simp [splitSep]
  | cons c rest ih =>
    have hc : ¬c = sep := by
      intro hcc
      exact h (hcc ▸ List.mem_cons_self c rest)
    have hrest : sep ∉ rest := fun hm => h (List.mem_cons_of_mem c hm)
    rw [splitSep_cons_ne _ _ _ hc (ih hrest)]

theorem splitSep_append {sep : Char} {q z : Str} (h : sep ∉ q) :
    splitSep sep (q ++ sep :: z) = q :: splitSep sep z := by
  induction q with
  | nil => simpa using splitSep_cons_sep sep z
  | cons c rest ih =>
    have hc : ¬c = sep := by
      intro hcc
      exact h (hcc ▸ List.mem_cons_self c rest)
    have hrest : sep ∉ rest := fun hm => h (List.mem_cons_of_mem c hm)
    have := ih hrest
    rw [List.cons_append, splitSep_cons_ne _ _ _ hc this]

theorem splitSep_joinNL {qs : List Str} (hne : qs ≠ [])
    (hfree : ∀ q ∈ qs, '\n' ∉ q) : splitSep '\n' (joinNL qs) = qs := by
  induction qs with
  | nil => exact absurd rfl hne
  | cons q qs ih =>
    cases qs with
    | nil =>
      show splitSep '\n' (joinNL [q]) = [q]
      exact splitSep_single (hfree q (List.mem_cons_self q []))
    | cons r rs =>
      show splitSep '\n' (q ++ '\n' :: joinNL (r :: rs)) = q :: r :: rs
      rw [splitSep_append (hfree q (List.mem_cons_self q _))]
      rw [ih (by simp) (fun x hx => hfree x (List.mem_cons_of_mem q hx))]

theorem mem_dropLastEmpty {ps : List Str} {q : Str}
    (h : q ∈ dropLastEmpty ps) : q ∈ ps := by
  induction ps with
  | nil => simp [dropLastEmpty] at h
  | cons p rest ih =>
    cases rest with
    | nil =>
      rw [dropLastEmpty] at h
      split at h <;> simp_all
    | cons r rs =>
      rw [dropLastEmpty] at h
      rcases List.mem_cons.1 h with h1 | h1
      · simp [h1]
      · exact List.mem_cons_of_mem p (ih h1)

theorem splitInclusiveNL_eq_nil_iff (s : Str) : splitInclusiveNL s = [] ↔ s = [] := by
  cases s with
  | nil => simp [splitInclusiveNL]
  | cons c rest =>
    rw [splitInclusiveNL]
    constructor
    · intro h
      by_cases hc : c = '\n'
      · simp [hc] at h
      · rw [if_neg hc] at h
        cases hh : splitInclusiveNL rest <;> simp [hh] at h
    · intro h
      exact absurd h (by simp)

theorem rustLineStrip_cons {c : Char} {p : Str} (hc : c ≠ '\r') (hp : p ≠ []) :
    rustLineStrip (c :: p) = c :: rustLineStrip p := by
  obtain ⟨d, t, hrev⟩ : ∃ d t, p.reverse = d :: t := by
    cases h : p.reverse with
    | nil => exact absurd (by simpa using congrArg List.reverse h) hp
    | cons d t => exact ⟨d, t, rfl⟩
  have hrev2 : (c :: p).reverse = d :: (t ++ [c]) := by
    rw [List.reverse_cons, hrev]; simp
  rw [rustLineStrip, rustLineStrip, hrev, hrev2]
  dsimp only
  by_cases hd : d = '\n'
  · rw [if_pos hd, if_pos hd]
    cases t with
    | nil =>
      have : ¬(([] ++ [c] : Str).head? = some '\r') := by
        simp
        exact fun h => hc h
      rw [if_neg this]
      simp
    | cons e t2 =>
      by_cases he : e = '\r'
      · subst he
        rw [if_pos (by simp), if_pos (by simp)]
        simp
      · rw [if_neg (by simpa using he), if_neg (by simpa using he)]
        simp
  · rw [if_neg hd, if_neg hd]

theorem rustLines_noCR {s : Str} (h : '\r' ∉ s) :
    rustLines s = dropLastEmpty (splitSep '\n' s) := by
  induction s with
  | nil => rfl
  | cons c rest ih =>
    have hrest : '\r' ∉ rest := fun hm => h (List.mem_cons_of_mem c hm)
    have hcr : c ≠ '\r' := fun hcc => h (hcc ▸ List.mem_cons_self c rest)
    obtain ⟨p₀, ps₀, h₀⟩ : ∃ p₀ ps₀, splitSep '\n' rest = p₀ :: ps₀ := by
      cases hh : splitSep '\n' rest with
      | nil => exact absurd hh (splitSep_ne_nil _ _)
      | cons a b => exact ⟨a, b, rfl⟩
    by_cases hc : c = '\n'
    · subst hc
      have hL : rustLines ('\n' :: rest) = [] :: rustLines rest := by
        unfold rustLines
        rw [splitInclusiveNL, if_pos rfl]
        simp [rustLineStrip]
      rw [hL, ih hrest, splitSep_cons_sep, h₀]
      rw [dropLastEmpty, ← h₀]
    · rw [splitSep_cons_ne _ _ _ hc h₀]
      cases hsi : splitInclusiveNL rest with
      | nil =>
        have hrnil : rest = [] := (splitInclusiveNL_eq_nil_iff rest).1 hsi
        subst hrnil
        simp [splitSep] at h₀
        obtain ⟨h₁, h₂⟩ := h₀
        subst h₁
        subst h₂
        unfold rustLines
        rw [splitInclusiveNL, if_neg hc, hsi]
        simp [rustLineStrip, hc, dropLastEmpty]
      | cons p ps =>
        have hpne : p ≠ [] := by
          intro hp
          subst hp
          have : rest ≠ [] := by
            intro hr; subst hr; simp [splitInclusiveNL] at hsi
          -- first inclusive piece is never empty
          cases rest with
          | nil => simp [splitInclusiveNL] at hsi
          | cons a b =>
            rw [splitInclusiveNL] at hsi
            by_cases ha : a = '\n'
            · rw [if_pos ha] at hsi
              simp at hsi
            · rw [if_neg ha] at hsi
              cases hb : splitInclusiveNL b <;> simp [hb] at hsi
        have hL : rustLines (c :: rest) = rustLineStrip (c :: p) :: (ps.map rustLineStrip) := by
          unfold rustLines
          rw [splitInclusiveNL, if_neg hc, hsi]
          simp
        have hLrest : rustLines rest = rustLineStrip p :: (ps.map rustLineStrip) := by
          unfold rustLines
          rw [hsi]
          simp
        rw [hL, rustLineStrip_cons hcr hpne]
        have ihr := ih hrest
        rw [hLrest, h₀] at ihr
        cases ps₀ with
        | nil =>
          rw [dropLastEmpty] at ihr ⊢
          by_cases hp₀ : p₀ = []
          · rw [if_pos hp₀] at ihr
            exact absurd ihr (by simp)
          · rw [if_neg hp₀] at ihr
            have h1 : rustLineStrip p = p₀ := by simpa using congrArg List.head? ihr
            have h2 : ps.map rustLineStrip = [] := by simpa using congrArg List.tail ihr
            rw [if_neg (by simp), h1, h2]
        | cons q qs =>
          rw [dropLastEmpty] at ihr
          have h1 : rustLineStrip p = p₀ := by simpa using congrArg List.head? ihr
          have h2 : ps.map rustLineStrip = dropLastEmpty (q :: qs) := by
            simpa using congrArg List.tail ihr
          rw [dropLastEmpty, h1, h2]

theorem collapseSpaceTab_fixed {s : Str} (h : noTabSS s) : collapseSpaceTab s = s := by
  induction s using collapseSpaceTab.induct with
  | case1 => simp [collapseSpaceTab]
  | case2 c rest hst ih =>
    obtain ⟨hnt, hch⟩ := h
    have hc : c = ' ' := by
      rcases (by simpa [isSpaceTab] using hst : c = ' ' ∨ c = '\t') with h1 | h1
      · exact h1
      · exact absurd (h1 ▸ List.mem_cons_self c rest) hnt
    subst hc
    have hdrop : rest.dropWhile isSpaceTab = rest := by
      cases rest with
      | nil => rfl
      | cons d rs =>
        have hne : ¬(' ' = ' ' ∧ d = ' ') := (List.chain'_cons.1 hch).1
        have hds : d ≠ ' ' := fun hh => hne ⟨rfl, hh⟩
        have hdt : d ≠ '\t' := fun hh => hnt (by simp [hh])
        rw [List.dropWhile_cons, if_neg (by simp [isSpaceTab, hds, hdt])]
    have ih2 : collapseSpaceTab rest = rest := by
      rw [hdrop] at ih
      exact ih ⟨fun hm => hnt (List.mem_cons_of_mem _ hm), hch.tail⟩
    rw [collapseSpaceTab, if_pos hst, hdrop, ih2]
  | case3 c rest hst ih =>
    obtain ⟨hnt, hch⟩ := h
    rw [collapseSpaceTab, if_neg hst,
      ih ⟨fun hm => hnt (List.mem_cons_of_mem _ hm), hch.tail⟩]

theorem tab_not_mem_collapseSpaceTab (s : Str) : '\t' ∉ collapseSpaceTab s := by
  induction s using collapseSpaceTab.induct with
  | case1 => simp [collapseSpaceTab]
  | case2 c rest hst ih =>
    rw [collapseSpaceTab, if_pos hst]
    intro hm
    rcases List.mem_cons.1 hm with h1 | h1
    · exact absurd h1 (by decide)
    · exact ih h1
  | case3 c rest hst ih =>
    rw [collapseSpaceTab, if_neg hst]
    intro hm
    rcases List.mem_cons.1 hm with h1 | h1
    · exact hst (by simp [isSpaceTab, ← h1])
    · exact ih h1

theorem head?_collapseSpaceTab_of_not_st {s : Str} {c : Char}
    (hh : s.head? = some c) (hc : ¬isSpaceTab c = true) :
    (collapseSpaceTab s).head? = some c := by
  cases s with
  | nil => simp at hh
  | cons d rest =>
    have : d = c := by simpa using hh
    subst this
    rw [collapseSpaceTab, if_neg hc]
    simp

theorem chain_collapseSpaceTab (s : Str) :
    List.Chain' (fun a b => ¬(a = ' ' ∧ b = ' ')) (collapseSpaceTab s) := by
  induction s using collapseSpaceTab.induct with
  | case1 => simp [collapseSpaceTab]
  | case2 c rest hst ih =>
    rw [collapseSpaceTab, if_pos hst]
    refine List.chain'_cons'.2 ⟨?_, ih⟩
    intro d hd
    cases hdw : (rest.dropWhile isSpaceTab).head? with
    | none =>
      cases hcol : collapseSpaceTab (rest.dropWhile isSpaceTab) with
      | nil => rw [hcol] at hd; simp at hd
      | cons e es =>
        exfalso
        cases hdrop : rest.dropWhile isSpaceTab with
        | nil => rw [hdrop] at hcol; simp [collapseSpaceTab] at hcol
        | cons f fs => rw [hdrop] at hdw; simp at hdw
    | some e =>
      have hest : isSpaceTab e = false := head?_dropWhile_false hdw
      have := head?_collapseSpaceTab_of_not_st hdw (by simp [hest])
      rw [this] at hd
      have hde : e = d := by simpa using hd
      subst hde
      intro hand
      rw [hand.2] at hest
      simp [isSpaceTab] at hest
  | case3 c rest hst ih =>
    rw [collapseSpaceTab, if_neg hst]
    refine List.chain'_cons'.2 ⟨?_, ih⟩
    intro d hd
    intro hand
    exact hst (by simp [isSpaceTab, hand.1])

theorem mem_collapseSpaceTab {s : Str} {c : Char}
    (h : c ∈ collapseSpaceTab s) : c ∈ s ∨ c = ' ' := by
  induction s using collapseSpaceTab.induct with
  | case1 => simp [collapseSpaceTab] at h
  | case2 d rest hst ih =>
    rw [collapseSpaceTab, if_pos hst] at h
    rcases List.mem_cons.1 h with h1 | h1
    · exact Or.inr h1
    · rcases ih h1 with h2 | h2
      · exact Or.inl (List.mem_cons_of_mem _ ((List.dropWhile_sublist _).subset h2))
      · exact Or.inr h2
  | case3 d rest hst ih =>
    rw [collapseSpaceTab, if_neg hst] at h
    rcases List.mem_cons.1 h with h1 | h1
    · exact Or.inl (by simp [h1])
    · rcases ih h1 with h2 | h2
      · exact Or.inl (List.mem_cons_of_mem _ h2)
      · exact Or.inr h2

theorem replaceCRLF_fixed {s : Str} (h : '\r' ∉ s) : replaceCRLF s = s := by
  induction s using replaceCRLF.induct with
  | case1 => rfl
  | case2 c => rfl
  | case3 c d rest hcd ih =>
    rw [replaceCRLF, if_pos hcd] at *
    exact absurd (by simp [hcd.1]) h
  | case4 c d rest hcd ih =>
    rw [replaceCRLF, if_neg hcd]
    rw [ih (fun hm => h (List.mem_cons_of_mem _ hm))]

theorem replaceCR_fixed {s : Str} (h : '\r' ∉ s) : replaceCR s = s := by
  unfold replaceCR
  induction s with
  | nil => rfl
  | cons c rest ih =>
    have hc : c ≠ '\r' := fun hh => h (by simp [hh])
    simp only [List.map_cons, if_neg hc]
    rw [ih (fun hm => h (List.mem_cons_of_mem _ hm))]

theorem mem_joinNL {ps : List Str} {c : Char} (h : c ∈ joinNL ps) :
    c = '\n' ∨ ∃ p ∈ ps, c ∈ p := by
  induction ps with
  | nil => simp [joinNL] at h
  | cons p qs ih =>
    cases qs with
    | nil =>
      exact Or.inr ⟨p, by simp, by simpa [joinNL] using h⟩
    | cons q rest =>
      rw [show joinNL (p :: q :: rest) = p ++ '\n' :: joinNL (q :: rest) from rfl] at h
      rcases List.mem_append.1 h with h1 | h1
      · exact Or.inr ⟨p, by simp, h1⟩
      · rcases List.mem_cons.1 h1 with h2 | h2
        · exact Or.inl h2
        · rcases ih h2 with h3 | ⟨r, hr, hcr⟩
          · exact Or.inl h3
          · exact Or.inr ⟨r, List.mem_cons_of_mem _ hr, hcr⟩

theorem chain_joinNL {R : Char → Char → Prop} {ps : List Str}
    (hp : ∀ p ∈ ps, List.Chain' R p) (hl : ∀ a, R a '\n') (hr : ∀ a, R '\n' a) :
    List.Chain' R (joinNL ps) := by
  induction ps with
  | nil => simp [joinNL]
  | cons p qs ih =>
    cases qs with
    | nil => simpa [joinNL] using hp p (by simp)
    | cons q rest =>
      rw [show joinNL (p :: q :: rest) = p ++ '\n' :: joinNL (q :: rest) from rfl]
      refine List.chain'_append.2 ⟨hp p (by simp), ?_, ?_⟩
      · refine List.chain'_cons'.2 ⟨fun y _ => hr y, ?_⟩
        exact ih (fun r hrr => hp r (List.mem_cons_of_mem _ hrr))
      · intro x _ y hy
        have hy2 : '\n' = y := by simpa using hy
        subst hy2
        exact hl x

theorem head?_collapseNL (s : Str) : (collapseNL s).head? = s.head? := by
  cases s with
  | nil => simp [collapseNL]
  | cons c rest =>
    by_cases hc : c = '\n'
    · subst hc
      rw [collapseNL, if_pos rfl]
      split <;> simp
    · rw [collapseNL, if_neg hc]
      simp

theorem mem_collapseNL {s : Str} {c : Char} (h : c ∈ collapseNL s) :
    c ∈ s ∨ c = '\n' := by
  induction s using collapseNL.induct with
  | case1 => simp [collapseNL] at h
  | case2 rest ih =>
    rw [collapseNL, if_pos rfl] at h
    rcases List.mem_append.1 h with h1 | h1
    · split at h1
      · rcases List.mem_cons.1 h1 with h2 | h2
        · exact Or.inr h2
        · exact Or.inr (by simpa using h2)
      · rcases List.mem_cons.1 h1 with h2 | h2
        · exact Or.inr h2
        · exact Or.inr (by simpa using List.mem_takeWhile_imp h2)
    · rcases ih h1 with h2 | h2
      · exact Or.inl (List.mem_cons_of_mem _ ((List.dropWhile_sublist _).subset h2))
      · exact Or.inr h2
  | case3 c' rest hc ih =>
    rw [collapseNL, if_neg hc] at h
    rcases List.mem_cons.1 h with h1 | h1
    · exact Or.inl (by simp [h1])
    · rcases ih h1 with h2 | h2
      · exact Or.inl (List.mem_cons_of_mem _ h2)
      · exact Or.inr h2

theorem chain'_of_forall_nl {R : Char → Char → Prop} {l : Str}
    (hnl : ∀ c ∈ l, c = '\n') (hnn : R '\n' '\n') : List.Chain' R l := by
  induction l with
  | nil => simp
  | cons c rest ih =>
    refine List.chain'_cons'.2 ⟨?_, ih (fun d hd => hnl d (List.mem_cons_of_mem _ hd))⟩
    intro y hy
    have hc : c = '\n' := hnl c (by simp)
    have hyr : y ∈ rest := by
      cases rest with
      | nil => simp at hy
      | cons r rs => simp at hy; simp [hy]
    have hyn : y = '\n' := hnl y (List.mem_cons_of_mem _ hyr)
    rw [hc, hyn]
    exact hnn

theorem collapseNL_block_all_nl {rest : Str} {c : Char}
    (h : c ∈ (if 2 ≤ (rest.takeWhile (· = '\n')).length then ['\n', '\n']
      else '\n' :: rest.takeWhile (· = '\n'))) : c = '\n' := by
  split at h
  · rcases List.mem_cons.1 h with h1 | h1
    · exact h1
    · simpa using h1
  · rcases List.mem_cons.1 h with h1 | h1
    · exact h1
    · simpa using List.mem_takeWhile_imp h1

theorem chain_collapseNL {R : Char → Char → Prop} {s : Str}
    (h : List.Chain' R s) (hl : ∀ a, R a '\n') (hr : ∀ a, R '\n' a) :
    List.Chain' R (collapseNL s) := by
  induction s using collapseNL.induct with
  | case1 => simp [collapseNL]
  | case2 rest ih =>
    rw [collapseNL, if_pos rfl]
    have hdropChain : List.Chain' R (rest.dropWhile (· = '\n')) :=
      h.tail.suffix (dropWhile_suffix _ _)
    refine List.chain'_append.2 ⟨?_, ih hdropChain, ?_⟩
    · split
      · exact List.chain'_cons.2 ⟨hl '\n', List.chain'_singleton _⟩
      · refine chain'_of_forall_nl ?_ (hl '\n')
        intro c hc
        rcases List.mem_cons.1 hc with h1 | h1
        · exact h1
        · simpa using List.mem_takeWhile_imp h1
    · intro x hx y _
      have : x = '\n' := by
        exact collapseNL_block_all_nl (List.mem_of_mem_getLast? hx)
      rw [this]
      exact hr y
  | case3 c rest hc ih =>
    rw [collapseNL, if_neg hc]
    refine List.chain'_cons'.2 ⟨?_, ih h.tail⟩
    intro y hy
    rw [head?_collapseNL] at hy
    exact (List.chain'_cons'.1 h).1 y hy

theorem noNL3_of_sub {s t : Str} (h : NoNL3 s) (ht : t <:+: s) : NoNL3 t :=
  fun hinf => h (hinf.trans ht)

theorem collapseNL_fixed {s : Str} (h : NoNL3 s) : collapseNL s = s := by
  induction s using collapseNL.induct with
  | case1 => simp [collapseNL]
  | case2 rest ih =>
    rw [collapseNL, if_pos rfl]
    have hrun : ¬2 ≤ (rest.takeWhile (· = '\n')).length := by
      intro hlen
      obtain ⟨a, b, t, ht⟩ : ∃ a b t, rest.takeWhile (· = '\n') = a :: b :: t := by
        cases h1 : rest.takeWhile (· = '\n') with
        | nil => rw [h1] at hlen; simp at hlen
        | cons a t1 =>
          cases t1 with
          | nil => rw [h1] at hlen; simp at hlen
          | cons b t => exact ⟨a, b, t, rfl⟩
      have ha : a = '\n' := by
        have hmem : a ∈ rest.takeWhile (· = '\n') := by rw [ht]; simp
        have hpd := List.mem_takeWhile_imp hmem
        exact of_decide_eq_true hpd
      have hb : b = '\n' := by
        have hmem : b ∈ rest.takeWhile (· = '\n') := by rw [ht]; simp
        have hpd := List.mem_takeWhile_imp hmem
        exact of_decide_eq_true hpd
      obtain ⟨u, hu⟩ : a :: b :: t <+: rest := ht ▸ List.takeWhile_prefix _
      apply h
      refine List.IsPrefix.isInfix ⟨t ++ u, ?_⟩
      rw [ha, hb] at hu
      simpa using hu
    rw [if_neg hrun]
    have hdrop : NoNL3 (rest.dropWhile (· = '\n')) :=
      noNL3_of_sub h ((dropWhile_suffix _ rest).isInfix.trans ⟨['\n'], [], by simp⟩)
    rw [ih hdrop]
    simp [List.takeWhile_append_dropWhile]
  | case3 c rest hc ih =>
    rw [collapseNL, if_neg hc]
    rw [ih (noNL3_of_sub h ⟨[c], [], by simp⟩)]

theorem noNL3_cons_of {Y : Str} (hY : NoNL3 Y)
    (hh : ∀ d, Y.head? = some d → d ≠ '\n') :
    NoNL3 ('\n' :: Y) ∧ NoNL3 ('\n' :: '\n' :: Y) := by
  have h1 : ¬(['\n', '\n', '\n'] <+: '\n' :: Y) := by
    intro hp
    rw [List.cons_prefix_cons] at hp
    obtain ⟨u, hu⟩ := hp.2
    cases Y with
    | nil => simp at hu
    | cons y ys =>
      have : y = '\n' := by simpa using congrArg List.head? hu.symm
      exact hh y rfl this
  have hA : NoNL3 ('\n' :: Y) := by
    intro hinf
    rcases List.infix_cons_iff.1 hinf with hp | hi
    · exact h1 hp
    · exact hY hi
  refine ⟨hA, ?_⟩
  intro hinf
  rcases List.infix_cons_iff.1 hinf with hp | hi
  · rw [List.cons_prefix_cons] at hp
    have h2 := (List.cons_prefix_cons.1 hp.2).2
    obtain ⟨u, hu⟩ := h2
    cases Y with
    | nil => simp at hu
    | cons y ys =>
      have : y = '\n' := by simpa using congrArg List.head? hu.symm
      exact hh y rfl this
  · exact hA hi

theorem noNL3_collapseNL (s : Str) : NoNL3 (collapseNL s) := by
  induction s using collapseNL.induct with
  | case1 => simp [collapseNL, NoNL3]
  | case2 rest ih =>
    rw [collapseNL, if_pos rfl]
    have hhead : ∀ d, (collapseNL (rest.dropWhile (· = '\n'))).head? = some d → d ≠ '\n' := by
      intro d hd
      rw [head?_collapseNL] at hd
      simpa using head?_dropWhile_false hd
    have hpair := noNL3_cons_of ih hhead
    split
    · exact hpair.2
    · cases h1 : rest.takeWhile (· = '\n') with
      | nil => simpa [h1] using hpair.1
      | cons a t1 =>
        have ha : a = '\n' := by
          have hmem : a ∈ rest.takeWhile (· = '\n') := by rw [h1]; simp
          have hpd := List.mem_takeWhile_imp hmem
          exact of_decide_eq_true hpd
        cases t1 with
        | nil => rw [ha]; simpa using hpair.2
        | cons b t =>
          exfalso
          rename_i hlen
          rw [h1] at hlen
          simp at hlen
  | case3 c rest hc ih =>
    rw [collapseNL, if_neg hc]
    intro hinf
    rcases List.infix_cons_iff.1 hinf with hp | hi
    · rw [List.cons_prefix_cons] at hp
      exact hc hp.1.symm
    · exact ih hi

theorem splitSep_dropWhileNL_suffix (z : Str) :
    splitSep '\n' (z.dropWhile (· = '\n')) <:+ splitSep '\n' z := by
  induction z with
  | nil => simp [List.dropWhile]
  | cons c rest ih =>
    by_cases hc : c = '\n'
    · subst hc
      rw [List.dropWhile_cons, if_pos (by simp), splitSep_cons_sep]
      exact ih.trans (List.suffix_cons _ _)
    · rw [List.dropWhile_cons, if_neg (by simpa using hc)]

theorem splitSep_collapseNL (x : Str) :
    (splitSep '\n' (collapseNL x)).head? = (splitSep '\n' x).head? ∧
    (∀ p ∈ (splitSep '\n' (collapseNL x)).tail, p ∈ (splitSep '\n' x).tail ∨ p = []) := by
  induction x using collapseNL.induct with
  | case1 => constructor <;> simp [collapseNL, splitSep]
  | case2 rest ih =>
    rw [collapseNL, if_pos rfl]
    obtain ⟨hh, ht⟩ := ih
    have hmemY : ∀ p ∈ splitSep '\n' (collapseNL (rest.dropWhile (· = '\n'))),
        p ∈ splitSep '\n' rest ∨ p = [] := by
      intro p hp
      have hsubset := (splitSep_dropWhileNL_suffix rest).sublist.subset
      cases hsp : splitSep '\n' (collapseNL (rest.dropWhile (· = '\n'))) with
      | nil => exact absurd hsp (splitSep_ne_nil _ _)
      | cons p0 ptail =>
        rw [hsp] at hp
        rcases List.mem_cons.1 hp with h1 | h1
        · rw [hsp] at hh
          cases hsd : splitSep '\n' (rest.dropWhile (· = '\n')) with
          | nil => exact absurd hsd (splitSep_ne_nil _ _)
          | cons q0 qtail =>
            rw [hsd] at hh
            have hpq : p = q0 := by rw [h1]; simpa using hh
            refine Or.inl (hsubset ?_)
            rw [hsd, hpq]
            simp
        · rw [hsp] at ht
          rcases ht p (by simpa using h1) with h2 | h2
          · exact Or.inl (hsubset (List.mem_of_mem_tail h2))
          · exact Or.inr h2
    have hsplit2 : splitSep '\n' ('\n' :: rest) = [] :: splitSep '\n' rest :=
      splitSep_cons_sep _ _
    split
    · rw [show (['\n', '\n'] : Str) ++ collapseNL (rest.dropWhile (· = '\n')) =
        '\n' :: '\n' :: collapseNL (rest.dropWhile (· = '\n')) from rfl]
      rw [splitSep_cons_sep, splitSep_cons_sep, hsplit2]
      constructor
      · simp
      · intro p hp
        simp only [List.tail_cons] at hp ⊢
        rcases List.mem_cons.1 hp with h1 | h1
        · exact Or.inr h1
        · exact hmemY p h1
    · cases h1 : rest.takeWhile (· = '\n') with
      | nil =>
        rw [show (['\n'] : Str) ++ collapseNL (rest.dropWhile (· = '\n')) =
          '\n' :: collapseNL (rest.dropWhile (· = '\n')) from rfl]
        rw [splitSep_cons_sep, hsplit2]
        constructor
        · cases hsp : splitSep '\n' (collapseNL (rest.dropWhile (· = '\n'))) with
          | nil => exact absurd hsp (splitSep_ne_nil _ _)
          | cons p0 ptail => simp
        · intro p hp
          simp only [List.tail_cons] at hp ⊢
          exact hmemY p hp
      | cons a t1 =>
        have ha : a = '\n' := by
          have hmem : a ∈ rest.takeWhile (· = '\n') := by rw [h1]; simp
          have hpd := List.mem_takeWhile_imp hmem
          exact of_decide_eq_true hpd
        cases t1 with
        | nil =>
          subst ha
          rw [show (['\n', '\n'] : Str) ++ collapseNL (rest.dropWhile (· = '\n')) =
            '\n' :: '\n' :: collapseNL (rest.dropWhile (· = '\n')) from rfl]
          rw [splitSep_cons_sep, splitSep_cons_sep, hsplit2]
          constructor
          · simp
          · intro p hp
            simp only [List.tail_cons] at hp ⊢
            rcases List.mem_cons.1 hp with h2 | h2
            · exact Or.inr h2
            · exact hmemY p h2
        | cons b t =>
          exfalso
          rename_i hlen
          rw [h1] at hlen
          simp at hlen
  | case3 c rest hc ih =>
    rw [collapseNL, if_neg hc]
    obtain ⟨hh, ht⟩ := ih
    obtain ⟨r0, rs, hr⟩ : ∃ r0 rs, splitSep '\n' rest = r0 :: rs := by
      cases hx : splitSep '\n' rest with
      | nil => exact absurd hx (splitSep_ne_nil _ _)
      | cons r0 rs => exact ⟨r0, rs, rfl⟩
    obtain ⟨w0, ws, hw⟩ : ∃ w0 ws, splitSep '\n' (collapseNL rest) = w0 :: ws := by
      cases hx : splitSep '\n' (collapseNL rest) with
      | nil => exact absurd hx (splitSep_ne_nil _ _)
      | cons w0 ws => exact ⟨w0, ws, rfl⟩
    have hw0 : w0 = r0 := by
      rw [hr, hw] at hh
      simpa using hh
    subst hw0
    rw [splitSep_cons_ne '\n' c _ hc hw, splitSep_cons_ne '\n' c _ hc hr]
    constructor
    · simp
    · intro p hp
      simp only [List.tail_cons] at hp ⊢
      have := ht p (by rw [hw]; simpa using hp)
      rcases this with h2 | h2
      · refine Or.inl ?_
        rw [hr] at h2
        simpa using h2
      · exact Or.inr h2

theorem mem_splitSep_collapseNL {x p : Str}
    (hp : p ∈ splitSep '\n' (collapseNL x)) : p ∈ splitSep '\n' x ∨ p = [] := by
  obtain ⟨hh, ht⟩ := splitSep_collapseNL x
  cases hw : splitSep '\n' (collapseNL x) with
  | nil => exact absurd hw (splitSep_ne_nil _ _)
  | cons w0 ws =>
    rw [hw] at hp
    rcases List.mem_cons.1 hp with h1 | h1
    · cases hx : splitSep '\n' x with
      | nil => exact absurd hx (splitSep_ne_nil _ _)
      | cons r0 rs =>
        rw [hw, hx] at hh
        have hpr : p = r0 := by rw [h1]; simpa using hh
        refine Or.inl ?_
        simp [hpr]
    · rcases ht p (by rw [hw]; simpa using h1) with h2 | h2
      · exact Or.inl (List.mem_of_mem_tail h2)
      · exact Or.inr h2

theorem dropLeadingWs_joinNL {ps : List Str}
    (hp : ∀ p ∈ ps, p = [] ∨ ∀ c, p.head? = some c → rustIsWhitespace c = false) :
    dropLeadingWs (joinNL ps) = joinNL (ps.dropWhile (fun q : Str => decide (q = []))) := by
  induction ps with
  | nil => simp [joinNL, dropLeadingWs, List.dropWhile]
  | cons p qs ih =>
    by_cases hpe : p = []
    · subst hpe
      cases qs with
      | nil => simp [joinNL, dropLeadingWs, List.dropWhile]
      | cons q rest =>
        rw [joinNL_nil_cons]
        have h1 : dropLeadingWs ('\n' :: joinNL (q :: rest)) =
            dropLeadingWs (joinNL (q :: rest)) := by
          unfold dropLeadingWs
          rw [List.dropWhile_cons, if_pos (by decide)]
        rw [h1]
        have h2 : List.dropWhile (fun q : Str => decide (q = [])) (([] : Str) :: q :: rest) =
            List.dropWhile (fun q : Str => decide (q = [])) (q :: rest) := by
          rw [List.dropWhile_cons]
          simp
        rw [h2, ih (fun r hr => hp r (List.mem_cons_of_mem _ hr))]
    · obtain ⟨c, p', hp'⟩ : ∃ c p', p = c :: p' := by
        cases p with
        | nil => exact absurd rfl hpe
        | cons c p' => exact ⟨c, p', rfl⟩
      have hcw : rustIsWhitespace c = false := by
        rcases hp p (by simp) with h1 | h1
        · exact absurd h1 hpe
        · exact h1 c (by rw [hp']; simp)
      rw [List.dropWhile_cons, if_neg (by simp [hp'])]
      cases qs with
      | nil =>
        show dropLeadingWs (joinNL [p]) = joinNL [p]
        show dropLeadingWs p = p
        unfold dropLeadingWs
        rw [hp', List.dropWhile_cons, if_neg (by simp [hcw])]
      | cons q rest =>
        show dropLeadingWs (p ++ '\n' :: joinNL (q :: rest)) = p ++ '\n' :: joinNL (q :: rest)
        unfold dropLeadingWs
        rw [hp', List.cons_append, List.dropWhile_cons, if_neg (by simp [hcw])]

theorem joinNL_append_single (ys : List Str) (z : Str) :
    joinNL (ys ++ [z]) = if ys.isEmpty then z else joinNL ys ++ '\n' :: z := by
  induction ys with
  | nil => simp [joinNL]
  | cons y ys ih =>
    cases ys with
    | nil => simp [joinNL]
    | cons y2 ys2 =>
      rw [List.cons_append]
      rw [show joinNL (y :: ((y2 :: ys2) ++ [z])) =
        y ++ '\n' :: joinNL ((y2 :: ys2) ++ [z]) from rfl]
      rw [ih]
      simp [joinNL, List.append_assoc]

theorem reverse_joinNL (ps : List Str) :
    (joinNL ps).reverse = joinNL ((ps.map List.reverse).reverse) := by
  induction ps with
  | nil => simp [joinNL]
  | cons p qs ih =>
    cases qs with
    | nil => simp [joinNL]
    | cons q rest =>
      rw [show joinNL (p :: q :: rest) = p ++ '\n' :: joinNL (q :: rest) from rfl]
      rw [List.reverse_append, List.reverse_cons]
      rw [ih]
      rw [show (List.map List.reverse (p :: q :: rest)).reverse =
        (List.map List.reverse (q :: rest)).reverse ++ [p.reverse] from by
          simp]
      rw [joinNL_append_single]
      rw [if_neg (by simp)]
      simp

theorem dropTrailingWs_joinNL {ps : List Str}
    (hp : ∀ p ∈ ps, p = [] ∨ ∀ c, p.getLast? = some c → rustIsWhitespace c = false) :
    dropTrailingWs (joinNL ps) =
      joinNL ((ps.reverse.dropWhile (fun q : Str => decide (q = []))).reverse) := by
  have hyp : ∀ p ∈ (ps.map List.reverse).reverse,
      p = [] ∨ ∀ c, p.head? = some c → rustIsWhitespace c = false := by
    intro p hp2
    rw [List.mem_reverse, List.mem_map] at hp2
    obtain ⟨a, ha, hrev⟩ := hp2
    rcases hp a ha with h1 | h1
    · left
      rw [← hrev, h1]
      simp
    · right
      intro c hc
      refine h1 c ?_
      rw [← hrev, List.head?_reverse] at hc
      exact hc
  have key := dropLeadingWs_joinNL hyp
  unfold dropTrailingWs
  rw [reverse_joinNL]
  rw [show (joinNL ((ps.map List.reverse).reverse)).dropWhile rustIsWhitespace =
      dropLeadingWs (joinNL ((ps.map List.reverse).reverse)) from rfl]
  rw [key, reverse_joinNL]
  have hps' : (ps.map List.reverse).reverse = List.map List.reverse ps.reverse := by
    rw [List.map_reverse]
  have hfun : ((fun q : Str => decide (q = [])) ∘ List.reverse) =
      (fun q : Str => decide (q = [])) := by
    funext q
    simp [List.reverse_eq_nil_iff]
  rw [hps', List.dropWhile_map, hfun, List.map_map]
  rw [show (List.reverse ∘ List.reverse : Str → Str) = id from by funext q; simp]
  simp

theorem mem_dropEdgeEmpty {ps : List Str} {q : Str} (h : q ∈ dropEdgeEmpty ps) :
    q ∈ ps := by
  unfold dropEdgeEmpty at h
  rw [List.mem_reverse] at h
  have h1 := (List.dropWhile_sublist _).subset h
  rw [List.mem_reverse] at h1
  exact (List.dropWhile_sublist _).subset h1

theorem getLast?_dropEdgeEmpty (ps : List Str) :
    ∀ q, (dropEdgeEmpty ps).getLast? = some q → q ≠ [] := by
  intro q hq
  unfold dropEdgeEmpty at hq
  rw [List.getLast?_reverse] at hq
  have := head?_dropWhile_false hq
  simpa using this

theorem rustTrim_joinNL {ps : List Str} (hp : ∀ p ∈ ps, rustTrim p = p) :
    rustTrim (joinNL ps) = joinNL (dropEdgeEmpty ps) := by
  unfold rustTrim
  rw [dropLeadingWs_joinNL (fun p hmem => by
    by_cases hpe : p = []
    · exact Or.inl hpe
    · exact Or.inr (fun c hc => trim_fixed_head (hp p hmem) hc))]
  rw [dropTrailingWs_joinNL (fun p hmem => by
    have hmem2 : p ∈ ps := (List.dropWhile_sublist _).subset hmem
    by_cases hpe : p = []
    · exact Or.inl hpe
    · exact Or.inr (fun c hc => trim_fixed_last (hp p hmem2) hc))]
  rfl

theorem map_fix {α : Type _} {f : α → α} {l : List α} (h : ∀ x ∈ l, f x = x) :
    l.map f = l := by
  induction l with
  | nil => rfl
  | cons x rest ih =>
    rw [List.map_cons, h x (by simp), ih (fun y hy => h y (List.mem_cons_of_mem _ hy))]

theorem dropLastEmpty_of_getLast {ps : List Str}
    (h : ∀ q, ps.getLast? = some q → q ≠ []) : dropLastEmpty ps = ps := by
  induction ps with
  | nil => rfl
  | cons p qs ih =>
    cases qs with
    | nil => rw [dropLastEmpty, if_neg (h p (by simp))]
    | cons q rest =>
      rw [dropLastEmpty, ih (fun r hr => h r (by rw [List.getLast?_cons_cons]; exact hr))]

theorem normalize_idem_aux (s : Str) :
    PromptNormalizer.normalize (PromptNormalizer.normalize s) =
      PromptNormalizer.normalize s := by
  set g := collapseSpaceTab (filterControl s) with hg
  have hgchar : ∀ c ∈ g, rustIsControl c = false ∨ c = '\n' := by
    intro c hc
    rcases mem_collapseSpaceTab hc with h1 | h1
    · have hpass := (List.mem_filter.1 h1).2
      have hct : c ≠ '\t' := fun hh => tab_not_mem_collapseSpaceTab _ (hh ▸ hc)
      simp only [Bool.or_eq_true, decide_eq_true_eq, Bool.not_eq_true'] at hpass
      rcases hpass with (hp | hp) | hp
      · exact Or.inl hp
      · exact Or.inr hp
      · exact absurd hp hct
    · subst h1
      exact Or.inl (by decide)
  have hgcr : '\r' ∉ g := by
    intro hm
    rcases hgchar '\r' hm with h1 | h1
    · exact absurd h1 (by decide)
    · exact absurd h1 (by decide)
  have hnorm : PromptNormalizer.normalize s = rustTrim (collapseNL (lineStage g)) := by
    unfold PromptNormalizer.normalize
    rw [← hg, replaceCRLF_fixed hgcr, replaceCR_fixed hgcr]
  rw [hnorm]
  set v := lineStage g with hv
  set w := collapseNL v with hw
  set t := rustTrim w with ht
  -- characters of t lie in g or are newlines
  have hpieceinf : ∀ p ∈ (rustLines g).map rustTrim, p <:+: g := by
    intro p hp
    rw [List.mem_map] at hp
    obtain ⟨p0, hp0, hpt⟩ := hp
    have hp0g : p0 <:+: g := by
      rw [rustLines_noCR hgcr] at hp0
      exact mem_splitSep_infix_self (mem_dropLastEmpty hp0)
    exact hpt ▸ (rustTrim_infix_self p0).trans hp0g
  have hchars : ∀ c ∈ t, c ∈ g ∨ c = '\n' := by
    intro c hc
    have hcw : c ∈ w := (rustTrim_infix_self w).sublist.subset hc
    rcases mem_collapseNL hcw with h1 | h1
    · rcases mem_joinNL h1 with h2 | ⟨p, hp, hcp⟩
      · exact Or.inr h2
      · exact Or.inl ((hpieceinf p hp).sublist.subset hcp)
    · exact Or.inr h1
  have hcharok : ∀ c ∈ t, rustIsControl c = false ∨ c = '\n' := by
    intro c hc
    rcases hchars c hc with h1 | h1
    · exact hgchar c h1
    · exact Or.inr h1
  -- stage 1: the control filter fixes t
  have h1 : filterControl t = t := by
    apply List.filter_eq_self.2
    intro c hc
    rcases hcharok c hc with hcase | hcase
    · simp [hcase]
    · simp [hcase]
  -- stage 2: the space/tab collapse fixes t
  have htab : '\t' ∉ t := by
    intro hm
    rcases hcharok '\t' hm with hcase | hcase
    · exact absurd hcase (by decide)
    · exact absurd hcase (by decide)
  have hchainT : List.Chain' (fun a b => ¬(a = ' ' ∧ b = ' ')) t := by
    have hchainV : List.Chain' (fun a b => ¬(a = ' ' ∧ b = ' ')) v := by
      apply chain_joinNL
      · intro p hp
        exact List.Chain'.infix (chain_collapseSpaceTab (filterControl s)) (hpieceinf p hp)
      · intro a hand
        exact absurd hand.2 (by decide)
      · intro a hand
        exact absurd hand.1 (by decide)
    have hchainW : List.Chain' (fun a b => ¬(a = ' ' ∧ b = ' ')) w := by
      apply chain_collapseNL hchainV
      · intro a hand
        exact absurd hand.2 (by decide)
      · intro a hand
        exact absurd hand.1 (by decide)
    exact List.Chain'.infix hchainW (rustTrim_infix_self w)
  have h2 : collapseSpaceTab t = t := collapseSpaceTab_fixed ⟨htab, hchainT⟩
  -- stage 3: no carriage return in t
  have hcrt : '\r' ∉ t := by
    intro hm
    rcases hcharok '\r' hm with hcase | hcase
    · exact absurd hcase (by decide)
    · exact absurd hcase (by decide)
  have h3 : replaceCRLF t = t := replaceCRLF_fixed hcrt
  have h4 : replaceCR t = t := replaceCR_fixed hcrt
  -- stage 4: the line-trimming stage fixes t
  have hpiecesV : ∀ p ∈ splitSep '\n' v, rustTrim p = p := by
    by_cases hqs : (rustLines g).map rustTrim = []
    · have hv0 : v = [] := by rw [hv]; unfold lineStage; rw [hqs]; rfl
      rw [hv0]
      intro p hp
      simp [splitSep] at hp
      rw [hp]
      rfl
    · have hfree : ∀ q ∈ (rustLines g).map rustTrim, '\n' ∉ q := by
        intro q hq hnl
        rw [List.mem_map] at hq
        obtain ⟨p0, hp0, hpt⟩ := hq
        have hmem0 : '\n' ∈ p0 := (rustTrim_infix_self p0).sublist.subset (hpt ▸ hnl)
        rw [rustLines_noCR hgcr] at hp0
        exact not_mem_of_mem_splitSep (mem_dropLastEmpty hp0) hmem0
      have hsplitv : splitSep '\n' v = (rustLines g).map rustTrim := by
        rw [hv]
        unfold lineStage
        exact splitSep_joinNL hqs hfree
      rw [hsplitv]
      intro p hp
      rw [List.mem_map] at hp
      obtain ⟨p0, _, hpt⟩ := hp
      rw [← hpt]
      exact rustTrim_idem p0
  have hpiecesW : ∀ p ∈ splitSep '\n' w, rustTrim p = p := by
    intro p hp
    rcases mem_splitSep_collapseNL hp with hcase | hcase
    · exact hpiecesV p hcase
    · rw [hcase]
      rfl
  have htjoin : t = joinNL (dropEdgeEmpty (splitSep '\n' w)) := by
    have hkey := rustTrim_joinNL hpiecesW
    rw [joinNL_splitSep] at hkey
    rw [ht, hkey]
  have h5 : lineStage t = t := by
    by_cases hrsnil : dropEdgeEmpty (splitSep '\n' w) = []
    · have ht0 : t = [] := by rw [htjoin, hrsnil]; rfl
      rw [ht0]
      rfl
    · have hsplitt : splitSep '\n' t = dropEdgeEmpty (splitSep '\n' w) := by
        rw [htjoin]
        apply splitSep_joinNL hrsnil
        intro q hq
        exact not_mem_of_mem_splitSep (mem_dropEdgeEmpty hq)
      unfold lineStage
      rw [rustLines_noCR hcrt, hsplitt,
        dropLastEmpty_of_getLast (getLast?_dropEdgeEmpty _),
        map_fix (fun p hp => hpiecesW p (mem_dropEdgeEmpty hp)), ← hsplitt]
      rw [hsplitt, ← htjoin]
  -- stage 5: the newline collapse fixes t
  have h6 : collapseNL t = t :=
    collapseNL_fixed (noNL3_of_sub (noNL3_collapseNL v) (rustTrim_infix_self w))
  -- stage 6: trimming fixes t
  have h7 : rustTrim t = t := rustTrim_idem w
  unfold PromptNormalizer.normalize
  rw [h1, h2, h3, h4, h5, h6, h7]

/-- C3: for every input string `s`, `normalize (normalize s) = normalize s`:
the prompt normalizer is idempotent on all inputs. -/
theorem C3_normalize_idempotent (s : Str) :
    PromptNormalizer.normalize (PromptNormalizer.normalize s) =
      PromptNormalizer.normalize s :=
  normalize_idem_aux s

/-- C4 as stated is false: joining the segments of `"a,,b"` with commas
yields `"a,b"`, while `normalize "a,,b"` is `"a,,b"` — empty pieces are
dropped, so the rejoin does not reproduce the normalized input. -/
theorem C4_counterexample :
    List.intercalate ((",").data)
        (PromptNormalizer.extract_segments (("a,,b").data)) ≠
      PromptNormalizer.normalize (("a,,b").data) := by
  have h1 : PromptNormalizer.extract_segments (("a,,b").data) =
      [("a").data, ("b").data] := by
    simp [PromptNormalizer.extract_segments, PromptNormalizer.normalize, splitSep,
      filterControl, rustIsControl, collapseSpaceTab, isSpaceTab, List.dropWhile,
      replaceCRLF, replaceCR, lineStage, rustLines, splitInclusiveNL, rustLineStrip,
      joinNL, collapseNL, List.takeWhile, rustTrim, dropLeadingWs, dropTrailingWs,
      rustIsWhitespace, List.filter]
  have h2 : PromptNormalizer.normalize (("a,,b").data) = ("a,,b").data := by
    simp [PromptNormalizer.normalize, filterControl, rustIsControl, collapseSpaceTab,
      isSpaceTab, List.dropWhile, replaceCRLF, replaceCR, lineStage, rustLines,
      splitInclusiveNL, rustLineStrip, joinNL, collapseNL, List.takeWhile, rustTrim,
      dropLeadingWs, dropTrailingWs, rustIsWhitespace, List.filter]
  rw [h1, h2]
  decide

/-- C4 (amended): every element of `extract_segments s` is a non-empty
string, and each element is its own normalization (a fixed point of
`normalize`); rejoining with commas does not in general reproduce
`normalize s`. -/
theorem C4_amended_segments_nonempty (s p : Str)
    (hp : p ∈ PromptNormalizer.extract_segments s) :
    p ≠ [] ∧ PromptNormalizer.normalize p = p := by
  unfold PromptNormalizer.extract_segments at hp
  rw [List.mem_filter] at hp
  obtain ⟨hmem, hne⟩ := hp
  rw [List.mem_map] at hmem
  obtain ⟨q, _, hqp⟩ := hmem
  constructor
  · simpa using hne
  · rw [← hqp]
    exact normalize_idem_aux q

/-- Witness for C4 (amended) at a concrete input. -/
theorem C4_amended_witness :
    (("a").data ∈ PromptNormalizer.extract_segments (("a, b").data)) ∧
    (("a").data ≠ [] ∧
      PromptNormalizer.normalize (("a").data) = ("a").data) := by
  have h1 : PromptNormalizer.extract_segments (("a, b").data) =
      [("a").data, ("b").data] := by
    simp [PromptNormalizer.extract_segments, PromptNormalizer.normalize, splitSep,
      filterControl, rustIsControl, collapseSpaceTab, isSpaceTab, List.dropWhile,
      replaceCRLF, replaceCR, lineStage, rustLines, splitInclusiveNL, rustLineStrip,
      joinNL, collapseNL, List.takeWhile, rustTrim, dropLeadingWs, dropTrailingWs,
      rustIsWhitespace, List.filter]
  have hmem : ("a").data ∈ PromptNormalizer.extract_segments (("a, b").data) := by
    rw [h1]
    simp
  exact ⟨hmem, C4_amended_segments_nonempty (("a, b").data) (("a").data) hmem⟩

/-- C6 as stated is false: the blob `"Seed: 1 Model hash: abc"` has a single
segment that contains `"Model hash:"`, yet the parser sets the seed field,
because the `Seed:` label prefix is tested before the Model-hash exclusion. -/
theorem C6_counterexample :
    (("Model hash:").data <:+: rustTrim (("Seed: 1 Model hash: abc").data)) ∧
    (parse_parameters_string (("Seed: 1 Model hash: abc").data)
        ExtractedMetadata.empty).seed = some (("1 Model hash: abc").data) := by
  constructor
  · decide
  · decide

/-- C6 (amended): every trimmed comma segment of the final line that begins
with one of the labels Steps, Sampler, CFG scale, Seed, Size, Model writes
its value unconditionally, overwriting any prior value of that field and
changing nothing else; a segment that begins with none of those labels —
including one that merely contains "Model hash:" — sets no field. -/
theorem C6_amended_param_routing (md : ExtractedMetadata) (part params : Str) :
    (List.isPrefixOf (("Steps:").data) (rustTrim part) = true →
      applyParamSegment md part =
        { md with
            steps := some (rustTrim ((rustTrim part).drop (("Steps:").data).length)) }) ∧
    (List.isPrefixOf (("Sampler:").data) (rustTrim part) = true →
      applyParamSegment md part =
        { md with
            sampler := some (rustTrim ((rustTrim part).drop (("Sampler:").data).length)) }) ∧
    (List.isPrefixOf (("CFG scale:").data) (rustTrim part) = true →
      applyParamSegment md part =
        { md with
            cfg_scale := some (rustTrim ((rustTrim part).drop (("CFG scale:").data).length)) }) ∧
    (List.isPrefixOf (("Seed:").data) (rustTrim part) = true →
      applyParamSegment md part =
        { md with
            seed := some (rustTrim ((rustTrim part).drop (("Seed:").data).length)) }) ∧
    (List.isPrefixOf (("Size:").data) (rustTrim part) = true →
      applyParamSegment md part =
        { md with
            size := some (rustTrim ((rustTrim part).drop (("Size:").data).length)) }) ∧
    (List.isPrefixOf (("Steps:").data) (rustTrim part) = false →
      List.isPrefixOf (("Sampler:").data) (rustTrim part) = false →
      List.isPrefixOf (("CFG scale:").data) (rustTrim part) = false →
      List.isPrefixOf (("Seed:").data) (rustTrim part) = false →
      List.isPrefixOf (("Size:").data) (rustTrim part) = false →
      List.isPrefixOf (("Model:").data) (rustTrim part) = true →
      applyParamSegment md part =
        { md with
            model := some (rustTrim ((rustTrim part).drop (("Model:").data).length)) }) ∧
    (List.isPrefixOf (("Steps:").data) (rustTrim part) = false →
      List.isPrefixOf (("Sampler:").data) (rustTrim part) = false →
      List.isPrefixOf (("CFG scale:").data) (rustTrim part) = false →
      List.isPrefixOf (("Seed:").data) (rustTrim part) = false →
      List.isPrefixOf (("Size:").data) (rustTrim part) = false →
      List.isPrefixOf (("Model:").data) (rustTrim part) = false →
      applyParamSegment md part = md) ∧
    (∀ l0 rest, rustLines params = l0 :: rest →
      parse_parameters_string params md =
        (splitSep ',' ((l0 :: rest).getLastD [])).foldl applyParamSegment
          ((l0 :: rest).foldl applyNegativeLine
            (if md.prompt = none
              then { md with prompt := some (rustTrim l0) } else md))) := by
  refine ⟨?_, ?_, ?_, ?_, ?_, ?_, ?_, ?_⟩
  · intro h
    unfold applyParamSegment
    rw [if_pos h]
  · intro h
    obtain ⟨u, hu⟩ := List.isPrefixOf_iff_prefix.1 h
    unfold applyParamSegment
    rw [if_neg ?hSteps, if_pos h]
    case hSteps =>
      rw [← hu]
      simp [List.isPrefixOf]
  · intro h
    obtain ⟨u, hu⟩ := List.isPrefixOf_iff_prefix.1 h
    unfold applyParamSegment
    rw [if_neg ?h1, if_neg ?h2, if_pos h]
    case h1 =>
      rw [← hu]
      simp [List.isPrefixOf]
    case h2 =>
      rw [← hu]
      simp [List.isPrefixOf]
  · intro h
    obtain ⟨u, hu⟩ := List.isPrefixOf_iff_prefix.1 h
    unfold applyParamSegment
    rw [if_neg ?h1, if_neg ?h2, if_neg ?h3, if_pos h]
    case h1 =>
      rw [← hu]
      simp [List.isPrefixOf]
    case h2 =>
      rw [← hu]
      simp [List.isPrefixOf]
    case h3 =>
      rw [← hu]
      simp [List.isPrefixOf]
  · intro h
    obtain ⟨u, hu⟩ := List.isPrefixOf_iff_prefix.1 h
    unfold applyParamSegment
    rw [if_neg ?h1, if_neg ?h2, if_neg ?h3, if_neg ?h4, if_pos h]
    case h1 =>
      rw [← hu]
      simp [List.isPrefixOf]
    case h2 =>
      rw [← hu]
      simp [List.isPrefixOf]
    case h3 =>
      rw [← hu]
      simp [List.isPrefixOf]
    case h4 =>
      rw [← hu]
      simp [List.isPrefixOf]
  · intro h1 h2 h3 h4 h5 h6
    unfold applyParamSegment
    rw [if_neg (by simp [h1]), if_neg (by simp [h2]), if_neg (by simp [h3]),
      if_neg (by simp [h4]), if_neg (by simp [h5]), if_pos h6]
  · intro h1 h2 h3 h4 h5 h6
    unfold applyParamSegment
    rw [if_neg (by simp [h1]), if_neg (by simp [h2]), if_neg (by simp [h3]),
      if_neg (by simp [h4]), if_neg (by simp [h5]), if_neg (by simp [h6])]
  · intro l0 rest hlines
    unfold parse_parameters_string
    rw [hlines]

/-- Witness for C6 (amended) at a concrete segment. -/
theorem C6_amended_witness :
    List.isPrefixOf (("Steps:").data) (rustTrim (("Steps: 20").data)) = true ∧
    applyParamSegment ExtractedMetadata.empty (("Steps: 20").data) =
      { ExtractedMetadata.empty with
          steps := some (rustTrim ((rustTrim (("Steps: 20").data)).drop
            (("Steps:").data).length)) } :=
  ⟨by decide,
    (C6_amended_param_routing ExtractedMetadata.empty (("Steps: 20").data) []).1
      (by decide)⟩

theorem promptPopulated_cases (node : List (Str × Json)) (w : ComfyUIWorkflow) :
    promptPopulated node w = w ∨
    ∃ v, promptPopulated node w = { w with readable_prompt := some v } := by
  unfold promptPopulated
  split
  · split
    · exact Or.inr ⟨_, rfl⟩
    · exact Or.inl rfl
  · exact Or.inl rfl

theorem promptWildcard_cases (node : List (Str × Json)) (w : ComfyUIWorkflow) :
    promptWildcard node w = w ∨
    ∃ v, promptWildcard node w = { w with readable_prompt := some v } := by
  unfold promptWildcard
  split
  · split
    · split
      · exact Or.inr ⟨_, rfl⟩
      · exact Or.inl rfl
    · exact Or.inl rfl
  · exact Or.inl rfl

theorem loaderModel_cases (node : List (Str × Json)) (w : ComfyUIWorkflow) :
    loaderModel node w = w ∨
    ∃ v, loaderModel node w = { w with model := some v } := by
  unfold loaderModel
  split
  · split
    · exact Or.inr ⟨_, rfl⟩
    · exact Or.inl rfl
  · exact Or.inl rfl

theorem loaderNegative_cases (node : List (Str × Json)) (w : ComfyUIWorkflow) :
    loaderNegative node w = w ∨
    ∃ v, loaderNegative node w = { w with negative_prompt := some v } := by
  unfold loaderNegative
  split
  · split
    · split
      · exact Or.inr ⟨_, rfl⟩
      · exact Or.inl rfl
    · exact Or.inl rfl
  · exact Or.inl rfl

theorem loaderLora_cases (node : List (Str × Json)) (w : ComfyUIWorkflow) :
    loaderLora node w = w ∨
    ∃ v, loaderLora node w = { w with lora := some v } := by
  unfold loaderLora
  split
  · split
    · exact Or.inr ⟨_, rfl⟩
    · exact Or.inl rfl
  · exact Or.inl rfl

theorem samplerSteps_cases (node : List (Str × Json)) (w : ComfyUIWorkflow) :
    samplerSteps node w = w ∨
    ∃ v, samplerSteps node w = { w with steps := some v } := by
  unfold samplerSteps
  split
  · exact Or.inr ⟨_, rfl⟩
  · exact Or.inl rfl

theorem samplerCfg_cases (node : List (Str × Json)) (w : ComfyUIWorkflow) :
    samplerCfg node w = w ∨
    ∃ v, samplerCfg node w = { w with cfg_scale := some v } := by
  unfold samplerCfg
  split
  · exact Or.inr ⟨_, rfl⟩
  · exact Or.inl rfl

theorem samplerName_cases (node : List (Str × Json)) (w : ComfyUIWorkflow) :
    samplerName node w = w ∨
    ∃ v, samplerName node w = { w with sampler := some v } := by
  unfold samplerName
  split
  · exact Or.inr ⟨_, rfl⟩
  · exact Or.inl rfl

theorem samplerSeed_cases (node : List (Str × Json)) (w : ComfyUIWorkflow) :
    samplerSeed node w = w ∨
    ∃ v, samplerSeed node w = { w with seed := some v } := by
  unfold samplerSeed
  split
  · exact Or.inr ⟨_, rfl⟩
  · exact Or.inl rfl

theorem latentWidth_cases (node : List (Str × Json)) (w : ComfyUIWorkflow) :
    latentWidth node w = w ∨
    ∃ v, latentWidth node w = { w with width := some v } := by
  unfold latentWidth
  split
  · exact Or.inr ⟨_, rfl⟩
  · exact Or.inl rfl

theorem latentHeight_cases (node : List (Str × Json)) (w : ComfyUIWorkflow) :
    latentHeight node w = w ∨
    ∃ v, latentHeight node w = { w with height := some v } := by
  unfold latentHeight
  split
  · exact Or.inr ⟨_, rfl⟩
  · exact Or.inl rfl

theorem promptPopulated_keeps {node : List (Str × Json)} {w : ComfyUIWorkflow}
    {v : Str} (h : w.readable_prompt = some v) : promptPopulated node w = w := by
  unfold promptPopulated
  split
  · rw [if_neg (by simp [h])]
  · rfl

theorem promptWildcard_keeps {node : List (Str × Json)} {w : ComfyUIWorkflow}
    {v : Str} (h : w.readable_prompt = some v) : promptWildcard node w = w := by
  unfold promptWildcard
  rw [if_neg (by simp [h])]

theorem loaderModel_keeps {node : List (Str × Json)} {w : ComfyUIWorkflow}
    {v : Str} (h : w.model = some v) : loaderModel node w = w := by
  unfold loaderModel
  rw [if_neg (by simp [h])]

theorem loaderNegative_keeps {node : List (Str × Json)} {w : ComfyUIWorkflow}
    {v : Str} (h : w.negative_prompt = some v) : loaderNegative node w = w := by
  unfold loaderNegative
  rw [if_neg (by simp [h])]

theorem loaderLora_keeps {node : List (Str × Json)} {w : ComfyUIWorkflow}
    {v : Str} (h : w.lora = some v) : loaderLora node w = w := by
  unfold loaderLora
  rw [if_neg (by simp [h])]

theorem promptStep_frame (ct : Str) (node : List (Str × Json)) (w : ComfyUIWorkflow) :
    (promptStep ct node w).negative_prompt = w.negative_prompt ∧
    (promptStep ct node w).model = w.model ∧
    (promptStep ct node w).lora = w.lora ∧
    (promptStep ct node w).steps = w.steps ∧
    (promptStep ct node w).cfg_scale = w.cfg_scale ∧
    (promptStep ct node w).sampler = w.sampler ∧
    (promptStep ct node w).seed = w.seed ∧
    (promptStep ct node w).width = w.width ∧
    (promptStep ct node w).height = w.height := by
  unfold promptStep
  split
  · rcases promptPopulated_cases node w with h1 | ⟨v1, h1⟩ <;>
      rcases promptWildcard_cases node (promptPopulated node w) with h2 | ⟨v2, h2⟩ <;>
      rw [h2, h1] <;> simp
  · simp

theorem loaderStep_frame (ct : Str) (node : List (Str × Json)) (w : ComfyUIWorkflow) :
    (loaderStep ct node w).readable_prompt = w.readable_prompt ∧
    (loaderStep ct node w).steps = w.steps ∧
    (loaderStep ct node w).cfg_scale = w.cfg_scale ∧
    (loaderStep ct node w).sampler = w.sampler ∧
    (loaderStep ct node w).seed = w.seed ∧
    (loaderStep ct node w).width = w.width ∧
    (loaderStep ct node w).height = w.height := by
  unfold loaderStep
  split
  · rcases loaderModel_cases node w with h1 | ⟨v1, h1⟩ <;>
      rcases loaderNegative_cases node (loaderModel node w) with h2 | ⟨v2, h2⟩ <;>
      rcases loaderLora_cases node (loaderNegative node (loaderModel node w)) with h3 | ⟨v3, h3⟩ <;>
      rw [h3, h2, h1] <;> simp
  · simp

theorem samplerStep_frame (ct : Str) (node : List (Str × Json)) (w : ComfyUIWorkflow) :
    (samplerStep ct node w).readable_prompt = w.readable_prompt ∧
    (samplerStep ct node w).negative_prompt = w.negative_prompt ∧
    (samplerStep ct node w).model = w.model ∧
    (samplerStep ct node w).lora = w.lora ∧
    (samplerStep ct node w).width = w.width ∧
    (samplerStep ct node w).height = w.height := by
  unfold samplerStep
  split
  · rcases samplerSteps_cases node w with h1 | ⟨v1, h1⟩ <;>
      rcases samplerCfg_cases node (samplerSteps node w) with h2 | ⟨v2, h2⟩ <;>
      rcases samplerName_cases node (samplerCfg node (samplerSteps node w)) with h3 | ⟨v3, h3⟩ <;>
      rcases samplerSeed_cases node (samplerName node (samplerCfg node (samplerSteps node w))) with h4 | ⟨v4, h4⟩ <;>
      rw [h4, h3, h2, h1] <;> simp
  · simp

theorem latentStep_frame (ct : Str) (node : List (Str × Json)) (w : ComfyUIWorkflow) :
    (latentStep ct node w).readable_prompt = w.readable_prompt ∧
    (latentStep ct node w).negative_prompt = w.negative_prompt ∧
    (latentStep ct node w).model = w.model ∧
    (latentStep ct node w).lora = w.lora ∧
    (latentStep ct node w).steps = w.steps ∧
    (latentStep ct node w).cfg_scale = w.cfg_scale ∧
    (latentStep ct node w).sampler = w.sampler ∧
    (latentStep ct node w).seed = w.seed := by
  unfold latentStep
  split
  · rcases latentWidth_cases node w with h1 | ⟨v1, h1⟩ <;>
      rcases latentHeight_cases node (latentWidth node w) with h2 | ⟨v2, h2⟩ <;>
      rw [h2, h1] <;> simp
  · simp

theorem promptStep_keeps {ct : Str} {node : List (Str × Json)} {w : ComfyUIWorkflow}
    {v : Str} (h : w.readable_prompt = some v) : promptStep ct node w = w := by
  unfold promptStep
  split
  · rw [promptPopulated_keeps h, promptWildcard_keeps h]
  · rfl

theorem loaderStep_keeps_model {ct : Str} {node : List (Str × Json)}
    {w : ComfyUIWorkflow} {v : Str} (h : w.model = some v) :
    (loaderStep ct node w).model = some v := by
  unfold loaderStep
  split
  · rw [loaderModel_keeps h]
    rcases loaderNegative_cases node w with h2 | ⟨v2, h2⟩ <;>
      rcases loaderLora_cases node (loaderNegative node w) with h3 | ⟨v3, h3⟩ <;>
      rw [h3, h2] <;> simp [h]
  · exact h

theorem loaderStep_keeps_negative {ct : Str} {node : List (Str × Json)}
    {w : ComfyUIWorkflow} {v : Str} (h : w.negative_prompt = some v) :
    (loaderStep ct node w).negative_prompt = some v := by
  unfold loaderStep
  split
  · rcases loaderModel_cases node w with h1 | ⟨v1, h1⟩ <;> rw [h1]
    · rw [loaderNegative_keeps h]
      rcases loaderLora_cases node w with h3 | ⟨v3, h3⟩ <;> rw [h3] <;> simp [h]
    · rw [loaderNegative_keeps (v := v) (by simp [h])]
      rcases loaderLora_cases node { w with model := some v1 } with h3 | ⟨v3, h3⟩ <;>
        rw [h3] <;> simp [h]
  · exact h

theorem loaderStep_keeps_lora {ct : Str} {node : List (Str × Json)}
    {w : ComfyUIWorkflow} {v : Str} (h : w.lora = some v) :
    (loaderStep ct node w).lora = some v := by
  unfold loaderStep
  split
  · rcases loaderModel_cases node w with h1 | ⟨v1, h1⟩ <;>
      rcases loaderNegative_cases node (loaderModel node w) with h2 | ⟨v2, h2⟩ <;>
      rw [h2, h1]
    · rw [loaderLora_keeps h]
      exact h
    · rw [loaderLora_keeps (v := v) (by simp [h])]
      simp [h]
    · rw [loaderLora_keeps (v := v) (by simp [h])]
      simp [h]
    · rw [loaderLora_keeps (v := v) (by simp [h])]
      simp [h]
  · exact h

theorem processNode_keeps_readable {w : ComfyUIWorkflow} {node : Json} {v : Str}
    (h : w.readable_prompt = some v) :
    (processNode w node).readable_prompt = some v := by
  unfold processNode
  split
  · split
    · rw [promptStep_keeps h, (latentStep_frame _ _ _).1, (samplerStep_frame _ _ _).1,
        (loaderStep_frame _ _ _).1]
      exact h
    · exact h
  · exact h

theorem processNode_keeps_negative {w : ComfyUIWorkflow} {node : Json} {v : Str}
    (h : w.negative_prompt = some v) :
    (processNode w node).negative_prompt = some v := by
  unfold processNode
  split
  · split
    · rw [(latentStep_frame _ _ _).2.1, (samplerStep_frame _ _ _).2.1]
      exact loaderStep_keeps_negative (by rw [(promptStep_frame _ _ _).1]; exact h)
    · exact h
  · exact h

theorem processNode_keeps_model {w : ComfyUIWorkflow} {node : Json} {v : Str}
    (h : w.model = some v) :
    (processNode w node).model = some v := by
  unfold processNode
  split
  · split
    · rw [(latentStep_frame _ _ _).2.2.1, (samplerStep_frame _ _ _).2.2.1]
      exact loaderStep_keeps_model (by rw [(promptStep_frame _ _ _).2.1]; exact h)
    · exact h
  · exact h

theorem processNode_keeps_lora {w : ComfyUIWorkflow} {node : Json} {v : Str}
    (h : w.lora = some v) :
    (processNode w node).lora = some v := by
  unfold processNode
  split
  · split
    · rw [(latentStep_frame _ _ _).2.2.2.1, (samplerStep_frame _ _ _).2.2.2.1]
      exact loaderStep_keeps_lora (by rw [(promptStep_frame _ _ _).2.2.1]; exact h)
    · exact h
  · exact h

theorem processNode_obj (w : ComfyUIWorkflow) (entries : List (Str × Json)) :
    processNode w (Json.obj entries) =
      match (entries.lookup (("class_type").data)).bind jsonAsStr with
      | some ct =>
        latentStep ct entries (samplerStep ct entries
          (loaderStep ct entries (promptStep ct entries w)))
      | none => w := rfl

theorem samplerSteps_set {node : List (Str × Json)} {w : ComfyUIWorkflow} {n : Nat}
    (h : (nodeInput node (("steps").data)).bind jsonAsU64 = some n) :
    samplerSteps node w = { w with steps := some (natToStr n) } := by
  unfold samplerSteps
  rw [h]

theorem samplerCfg_set {node : List (Str × Json)} {w : ComfyUIWorkflow} {r : Str}
    (h : (nodeInput node (("cfg").data)).bind jsonAsF64Str = some r) :
    samplerCfg node w = { w with cfg_scale := some r } := by
  unfold samplerCfg
  rw [h]

theorem samplerName_set {node : List (Str × Json)} {w : ComfyUIWorkflow} {v : Str}
    (h : (nodeInput node (("sampler_name").data)).bind jsonAsStr = some v) :
    samplerName node w = { w with sampler := some v } := by
  unfold samplerName
  rw [h]

theorem samplerSeed_set {node : List (Str × Json)} {w : ComfyUIWorkflow} {n : Nat}
    (h : (nodeInput node (("seed").data)).bind jsonAsU64 = some n) :
    samplerSeed node w = { w with seed := some (natToStr n) } := by
  unfold samplerSeed
  rw [h]

theorem latentWidth_set {node : List (Str × Json)} {w : ComfyUIWorkflow} {n : Nat}
    (h : (nodeInput node (("width").data)).bind jsonAsU64 = some n) :
    latentWidth node w = { w with width := some (natToStr n) } := by
  unfold latentWidth
  rw [h]

theorem latentHeight_set {node : List (Str × Json)} {w : ComfyUIWorkflow} {n : Nat}
    (h : (nodeInput node (("height").data)).bind jsonAsU64 = some n) :
    latentHeight node w = { w with height := some (natToStr n) } := by
  unfold latentHeight
  rw [h]

theorem processNode_sets_steps {w : ComfyUIWorkflow} {entries : List (Str × Json)}
    {ct : Str} {n : Nat}
    (hct : (entries.lookup (("class_type").data)).bind jsonAsStr = some ct)
    (hsampler : containsSub ct (("Sampler").data) = true)
    (hinput : (nodeInput entries (("steps").data)).bind jsonAsU64 = some n) :
    (processNode w (Json.obj entries)).steps = some (natToStr n) := by
  simp only [processNode_obj, hct]
  rw [(latentStep_frame _ _ _).2.2.2.2.1]
  unfold samplerStep
  rw [if_pos hsampler]
  rw [samplerSteps_set hinput]
  rcases samplerCfg_cases entries { loaderStep ct entries (promptStep ct entries w) with
      steps := some (natToStr n) } with h2 | ⟨v2, h2⟩ <;>
    rcases samplerName_cases entries (samplerCfg entries
      { loaderStep ct entries (promptStep ct entries w) with
        steps := some (natToStr n) }) with h3 | ⟨v3, h3⟩ <;>
    rcases samplerSeed_cases entries (samplerName entries (samplerCfg entries
      { loaderStep ct entries (promptStep ct entries w) with
        steps := some (natToStr n) })) with h4 | ⟨v4, h4⟩ <;>
    rw [h4, h3, h2] <;> simp

theorem processNode_sets_cfg {w : ComfyUIWorkflow} {entries : List (Str × Json)}
    {ct : Str} {r : Str}
    (hct : (entries.lookup (("class_type").data)).bind jsonAsStr = some ct)
    (hsampler : containsSub ct (("Sampler").data) = true)
    (hinput : (nodeInput entries (("cfg").data)).bind jsonAsF64Str = some r) :
    (processNode w (Json.obj entries)).cfg_scale = some r := by
  simp only [processNode_obj, hct]
  rw [(latentStep_frame _ _ _).2.2.2.2.2.1]
  unfold samplerStep
  rw [if_pos hsampler]
  rw [samplerCfg_set hinput]
  rcases samplerName_cases entries { samplerSteps entries (loaderStep ct entries
      (promptStep ct entries w)) with cfg_scale := some r } with h3 | ⟨v3, h3⟩ <;>
    rcases samplerSeed_cases entries (samplerName entries { samplerSteps entries
      (loaderStep ct entries (promptStep ct entries w)) with
        cfg_scale := some r }) with h4 | ⟨v4, h4⟩ <;>
    rw [h4, h3] <;> simp

theorem processNode_sets_sampler {w : ComfyUIWorkflow} {entries : List (Str × Json)}
    {ct : Str} {v : Str}
    (hct : (entries.lookup (("class_type").data)).bind jsonAsStr = some ct)
    (hsampler : containsSub ct (("Sampler").data) = true)
    (hinput : (nodeInput entries (("sampler_name").data)).bind jsonAsStr = some v) :
    (processNode w (Json.obj entries)).sampler = some v := by
  simp only [processNode_obj, hct]
  rw [(latentStep_frame _ _ _).2.2.2.2.2.2.1]
  unfold samplerStep
  rw [if_pos hsampler]
  rw [samplerName_set hinput]
  rcases samplerSeed_cases entries { samplerCfg entries (samplerSteps entries
      (loaderStep ct entries (promptStep ct entries w))) with
        sampler := some v } with h4 | ⟨v4, h4⟩ <;>
    rw [h4] <;> simp

theorem processNode_sets_seed {w : ComfyUIWorkflow} {entries : List (Str × Json)}
    {ct : Str} {n : Nat}
    (hct : (entries.lookup (("class_type").data)).bind jsonAsStr = some ct)
    (hsampler : containsSub ct (("Sampler").data) = true)
    (hinput : (nodeInput entries (("seed").data)).bind jsonAsU64 = some n) :
    (processNode w (Json.obj entries)).seed = some (natToStr n) := by
  simp only [processNode_obj, hct]
  rw [(latentStep_frame _ _ _).2.2.2.2.2.2.2]
  unfold samplerStep
  rw [if_pos hsampler]
  rw [samplerSeed_set hinput]

theorem processNode_sets_width {w : ComfyUIWorkflow} {entries : List (Str × Json)}
    {ct : Str} {n : Nat}
    (hct : (entries.lookup (("class_type").data)).bind jsonAsStr = some ct)
    (hlatent : (containsSub ct (("Latent").data) || containsSub ct (("Empty").data)) = true)
    (hinput : (nodeInput entries (("width").data)).bind jsonAsU64 = some n) :
    (processNode w (Json.obj entries)).width = some (natToStr n) := by
  simp only [processNode_obj, hct]
  unfold latentStep
  rw [if_pos hlatent]
  rw [latentWidth_set hinput]
  rcases latentHeight_cases entries { samplerStep ct entries (loaderStep ct entries
      (promptStep ct entries w)) with width := some (natToStr n) } with h2 | ⟨v2, h2⟩ <;>
    rw [h2] <;> simp

theorem processNode_sets_height {w : ComfyUIWorkflow} {entries : List (Str × Json)}
    {ct : Str} {n : Nat}
    (hct : (entries.lookup (("class_type").data)).bind jsonAsStr = some ct)
    (hlatent : (containsSub ct (("Latent").data) || containsSub ct (("Empty").data)) = true)
    (hinput : (nodeInput entries (("height").data)).bind jsonAsU64 = some n) :
    (processNode w (Json.obj entries)).height = some (natToStr n) := by
  simp only [processNode_obj, hct]
  unfold latentStep
  rw [if_pos hlatent]
  rw [latentHeight_set hinput]

theorem promptPopulated_sets_field {node : List (Str × Json)} {x : ComfyUIWorkflow}
    {pt : Str} (hx : x.readable_prompt = none)
    (hinput : (nodeInput node (("populated_text").data)).bind jsonAsStr = some pt)
    (hne : pt ≠ []) : (promptPopulated node x).readable_prompt = some pt := by
  unfold promptPopulated
  simp only [hinput]
  rw [if_pos ⟨hx, hne⟩]

theorem loaderModel_sets_field {node : List (Str × Json)} {x : ComfyUIWorkflow}
    {name : Str} (hx : x.model = none)
    (hinput : (nodeInput node (("ckpt_name").data)).bind jsonAsStr = some name) :
    (loaderModel node x).model = some name := by
  unfold loaderModel
  rw [if_pos hx]
  simp only [hinput]

theorem loaderNegative_sets_field {node : List (Str × Json)} {x : ComfyUIWorkflow}
    {neg : Str} (hx : x.negative_prompt = none)
    (hinput : (nodeInput node (("negative").data)).bind jsonAsStr = some neg)
    (hne : neg ≠ []) : (loaderNegative node x).negative_prompt = some neg := by
  unfold loaderNegative
  rw [if_pos hx]
  simp only [hinput]
  rw [if_pos hne]

theorem loaderLora_sets_field {node : List (Str × Json)} {x : ComfyUIWorkflow}
    {loraName : Str} (hx : x.lora = none)
    (hinput : (nodeInput node (("lora_name").data)).bind jsonAsStr = some loraName) :
    (loaderLora node x).lora = some loraName := by
  unfold loaderLora
  rw [if_pos hx]
  simp only [hinput]

theorem processNode_sets_readable {w : ComfyUIWorkflow} {entries : List (Str × Json)}
    {ct pt : Str}
    (hct : (entries.lookup (("class_type").data)).bind jsonAsStr = some ct)
    (hmatch : (containsSub ct (("Wildcard").data) || containsSub ct (("Text").data) ||
      containsSub ct (("Prompt").data)) = true)
    (hinput : (nodeInput entries (("populated_text").data)).bind jsonAsStr = some pt)
    (hne : pt ≠ []) (hnone : w.readable_prompt = none) :
    (processNode w (Json.obj entries)).readable_prompt = some pt := by
  simp only [processNode_obj, hct]
  rw [(latentStep_frame _ _ _).1, (samplerStep_frame _ _ _).1, (loaderStep_frame _ _ _).1]
  unfold promptStep
  rw [if_pos hmatch]
  have h1 : (promptPopulated entries w).readable_prompt = some pt :=
    promptPopulated_sets_field hnone hinput hne
  rw [promptWildcard_keeps h1]
  exact h1

theorem processNode_sets_model {w : ComfyUIWorkflow} {entries : List (Str × Json)}
    {ct name : Str}
    (hct : (entries.lookup (("class_type").data)).bind jsonAsStr = some ct)
    (hloader : (containsSub ct (("Loader").data) ||
      containsSub ct (("Checkpoint").data)) = true)
    (hinput : (nodeInput entries (("ckpt_name").data)).bind jsonAsStr = some name)
    (hnone : w.model = none) :
    (processNode w (Json.obj entries)).model = some name := by
  simp only [processNode_obj, hct]
  rw [(latentStep_frame _ _ _).2.2.1, (samplerStep_frame _ _ _).2.2.1]
  unfold loaderStep
  rw [if_pos hloader]
  have hpm : (promptStep ct entries w).model = none := by
    rw [(promptStep_frame _ _ _).2.1]
    exact hnone
  have h1 : (loaderModel entries (promptStep ct entries w)).model = some name :=
    loaderModel_sets_field hpm hinput
  have h2 : (loaderNegative entries (loaderModel entries
      (promptStep ct entries w))).model = some name := by
    rcases loaderNegative_cases entries (loaderModel entries (promptStep ct entries w))
      with hc | ⟨v2, hc⟩ <;> rw [hc] <;> simp [h1]
  rcases loaderLora_cases entries (loaderNegative entries (loaderModel entries
      (promptStep ct entries w))) with hc | ⟨v3, hc⟩ <;> rw [hc] <;> simp [h2]

theorem processNode_sets_negative {w : ComfyUIWorkflow} {entries : List (Str × Json)}
    {ct neg : Str}
    (hct : (entries.lookup (("class_type").data)).bind jsonAsStr = some ct)
    (hloader : (containsSub ct (("Loader").data) ||
      containsSub ct (("Checkpoint").data)) = true)
    (hinput : (nodeInput entries (("negative").data)).bind jsonAsStr = some neg)
    (hne : neg ≠ []) (hnone : w.negative_prompt = none) :
    (processNode w (Json.obj entries)).negative_prompt = some neg := by
  simp only [processNode_obj, hct]
  rw [(latentStep_frame _ _ _).2.1, (samplerStep_frame _ _ _).2.1]
  unfold loaderStep
  rw [if_pos hloader]
  have hpn : (promptStep ct entries w).negative_prompt = none := by
    rw [(promptStep_frame _ _ _).1]
    exact hnone
  have h0 : (loaderModel entries (promptStep ct entries w)).negative_prompt = none := by
    rcases loaderModel_cases entries (promptStep ct entries w) with hc | ⟨v1, hc⟩ <;>
      rw [hc] <;> simp [hpn]
  have h1 : (loaderNegative entries (loaderModel entries
      (promptStep ct entries w))).negative_prompt = some neg :=
    loaderNegative_sets_field h0 hinput hne
  rcases loaderLora_cases entries (loaderNegative entries (loaderModel entries
      (promptStep ct entries w))) with hc | ⟨v3, hc⟩ <;> rw [hc] <;> simp [h1]

theorem processNode_sets_lora {w : ComfyUIWorkflow} {entries : List (Str × Json)}
    {ct loraName : Str}
    (hct : (entries.lookup (("class_type").data)).bind jsonAsStr = some ct)
    (hloader : (containsSub ct (("Loader").data) ||
      containsSub ct (("Checkpoint").data)) = true)
    (hinput : (nodeInput entries (("lora_name").data)).bind jsonAsStr = some loraName)
    (hnone : w.lora = none) :
    (processNode w (Json.obj entries)).lora = some loraName := by
  simp only [processNode_obj, hct]
  rw [(latentStep_frame _ _ _).2.2.2.1, (samplerStep_frame _ _ _).2.2.2.1]
  unfold loaderStep
  rw [if_pos hloader]
  have hpl : (promptStep ct entries w).lora = none := by
    rw [(promptStep_frame _ _ _).2.2.1]
    exact hnone
  have h0 : (loaderNegative entries (loaderModel entries
      (promptStep ct entries w))).lora = none := by
    rcases loaderModel_cases entries (promptStep ct entries w) with hc | ⟨v1, hc⟩ <;>
      rcases loaderNegative_cases entries (loaderModel entries (promptStep ct entries w))
        with hc2 | ⟨v2, hc2⟩ <;> rw [hc2, hc] <;> simp [hpl]
  exact loaderLora_sets_field h0 hinput

theorem foldl_keeps_readable {nodes : List (Str × Json)} {w : ComfyUIWorkflow} {v : Str}
    (h : w.readable_prompt = some v) :
    (nodes.foldl (fun acc entry => processNode acc entry.2) w).readable_prompt = some v := by
  induction nodes generalizing w with
  | nil => exact h
  | cons nd rest ih => exact ih (processNode_keeps_readable h)

theorem foldl_keeps_negative {nodes : List (Str × Json)} {w : ComfyUIWorkflow} {v : Str}
    (h : w.negative_prompt = some v) :
    (nodes.foldl (fun acc entry => processNode acc entry.2) w).negative_prompt = some v := by
  induction nodes generalizing w with
  | nil => exact h
  | cons nd rest ih => exact ih (processNode_keeps_negative h)

theorem foldl_keeps_model {nodes : List (Str × Json)} {w : ComfyUIWorkflow} {v : Str}
    (h : w.model = some v) :
    (nodes.foldl (fun acc entry => processNode acc entry.2) w).model = some v := by
  induction nodes generalizing w with
  | nil => exact h
  | cons nd rest ih => exact ih (processNode_keeps_model h)

theorem foldl_keeps_lora {nodes : List (Str × Json)} {w : ComfyUIWorkflow} {v : Str}
    (h : w.lora = some v) :
    (nodes.foldl (fun acc entry => processNode acc entry.2) w).lora = some v := by
  induction nodes generalizing w with
  | nil => exact h
  | cons nd rest ih => exact ih (processNode_keeps_lora h)

/-- C1: in the workflow node loop, the fields routed from
`Wildcard`/`Text`/`Prompt` and `Loader`/`Checkpoint` nodes
(readable_prompt, negative_prompt, model, lora) follow first-match-wins:
once set they survive every later node (per node and over any node list),
and a matching node fills them only while they are unset; the fields
routed from `Sampler` nodes (steps, cfg_scale, sampler, seed) and from
`Latent`/`Empty` nodes (width, height) follow last-match-wins: every
matching node overwrites them regardless of the current value. -/
theorem C1_workflow_write_policy :
    (∀ w node v, w.readable_prompt = some v →
      (processNode w node).readable_prompt = some v) ∧
    (∀ w node v, w.negative_prompt = some v →
      (processNode w node).negative_prompt = some v) ∧
    (∀ w node v, w.model = some v → (processNode w node).model = some v) ∧
    (∀ w node v, w.lora = some v → (processNode w node).lora = some v) ∧
    (∀ (w : ComfyUIWorkflow) (nodes : List (Str × Json)) (v : Str),
      w.readable_prompt = some v →
      (List.foldl (fun acc entry => processNode acc entry.2) w nodes).readable_prompt
        = some v) ∧
    (∀ (w : ComfyUIWorkflow) (nodes : List (Str × Json)) (v : Str),
      w.negative_prompt = some v →
      (List.foldl (fun acc entry => processNode acc entry.2) w nodes).negative_prompt
        = some v) ∧
    (∀ (w : ComfyUIWorkflow) (nodes : List (Str × Json)) (v : Str),
      w.model = some v →
      (List.foldl (fun acc entry => processNode acc entry.2) w nodes).model = some v) ∧
    (∀ (w : ComfyUIWorkflow) (nodes : List (Str × Json)) (v : Str),
      w.lora = some v →
      (List.foldl (fun acc entry => processNode acc entry.2) w nodes).lora = some v) ∧
    (∀ w entries ct pt,
      (List.lookup (("class_type").data) entries).bind jsonAsStr = some ct →
      (containsSub ct (("Wildcard").data) || containsSub ct (("Text").data) ||
        containsSub ct (("Prompt").data)) = true →
      (nodeInput entries (("populated_text").data)).bind jsonAsStr = some pt →
      pt ≠ [] → w.readable_prompt = none →
      (processNode w (Json.obj entries)).readable_prompt = some pt) ∧
    (∀ w entries ct neg,
      (List.lookup (("class_type").data) entries).bind jsonAsStr = some ct →
      (containsSub ct (("Loader").data) || containsSub ct (("Checkpoint").data)) = true →
      (nodeInput entries (("negative").data)).bind jsonAsStr = some neg →
      neg ≠ [] → w.negative_prompt = none →
      (processNode w (Json.obj entries)).negative_prompt = some neg) ∧
    (∀ w entries ct name,
      (List.lookup (("class_type").data) entries).bind jsonAsStr = some ct →
      (containsSub ct (("Loader").data) || containsSub ct (("Checkpoint").data)) = true →
      (nodeInput entries (("ckpt_name").data)).bind jsonAsStr = some name →
      w.model = none →
      (processNode w (Json.obj entries)).model = some name) ∧
    (∀ w entries ct loraName,
      (List.lookup (("class_type").data) entries).bind jsonAsStr = some ct →
      (containsSub ct (("Loader").data) || containsSub ct (("Checkpoint").data)) = true →
      (nodeInput entries (("lora_name").data)).bind jsonAsStr = some loraName →
      w.lora = none →
      (processNode w (Json.obj entries)).lora = some loraName) ∧
    (∀ w entries ct n,
      (List.lookup (("class_type").data) entries).bind jsonAsStr = some ct →
      containsSub ct (("Sampler").data) = true →
      (nodeInput entries (("steps").data)).bind jsonAsU64 = some n →
      (processNode w (Json.obj entries)).steps = some (natToStr n)) ∧
    (∀ w entries ct r,
      (List.lookup (("class_type").data) entries).bind jsonAsStr = some ct →
      containsSub ct (("Sampler").data) = true →
      (nodeInput entries (("cfg").data)).bind jsonAsF64Str = some r →
      (processNode w (Json.obj entries)).cfg_scale = some r) ∧
    (∀ w entries ct v,
      (List.lookup (("class_type").data) entries).bind jsonAsStr = some ct →
      containsSub ct (("Sampler").data) = true →
      (nodeInput entries (("sampler_name").data)).bind jsonAsStr = some v →
      (processNode w (Json.obj entries)).sampler = some v) ∧
    (∀ w entries ct n,
      (List.lookup (("class_type").data) entries).bind jsonAsStr = some ct →
      containsSub ct (("Sampler").data) = true →
      (nodeInput entries (("seed").data)).bind jsonAsU64 = some n →
      (processNode w (Json.obj entries)).seed = some (natToStr n)) ∧
    (∀ w entries ct n,
      (List.lookup (("class_type").data) entries).bind jsonAsStr = some ct →
      (containsSub ct (("Latent").data) || containsSub ct (("Empty").data)) = true →
      (nodeInput entries (("width").data)).bind jsonAsU64 = some n →
      (processNode w (Json.obj entries)).width = some (natToStr n)) ∧
    (∀ w entries ct n,
      (List.lookup (("class_type").data) entries).bind jsonAsStr = some ct →
      (containsSub ct (("Latent").data) || containsSub ct (("Empty").data)) = true →
      (nodeInput entries (("height").data)).bind jsonAsU64 = some n →
      (processNode w (Json.obj entries)).height = some (natToStr n)) := by
  refine ⟨?_, ?_, ?_, ?_, ?_, ?_, ?_, ?_, ?_, ?_, ?_, ?_, ?_, ?_, ?_, ?_, ?_, ?_⟩
  · exact fun w node v h => processNode_keeps_readable h
  · exact fun w node v h => processNode_keeps_negative h
  · exact fun w node v h => processNode_keeps_model h
  · exact fun w node v h => processNode_keeps_lora h
  · exact fun w nodes v h => foldl_keeps_readable h
  · exact fun w nodes v h => foldl_keeps_negative h
  · exact fun w nodes v h => foldl_keeps_model h
  · exact fun w nodes v h => foldl_keeps_lora h
  · exact fun w entries ct pt h1 h2 h3 h4 h5 =>
      processNode_sets_readable h1 h2 h3 h4 h5
  · exact fun w entries ct neg h1 h2 h3 h4 h5 =>
      processNode_sets_negative h1 h2 h3 h4 h5
  · exact fun w entries ct name h1 h2 h3 h4 => processNode_sets_model h1 h2 h3 h4
  · exact fun w entries ct loraName h1 h2 h3 h4 => processNode_sets_lora h1 h2 h3 h4
  · exact fun w entries ct n h1 h2 h3 => processNode_sets_steps h1 h2 h3
  · exact fun w entries ct r h1 h2 h3 => processNode_sets_cfg h1 h2 h3
  · exact fun w entries ct v h1 h2 h3 => processNode_sets_sampler h1 h2 h3
  · exact fun w entries ct n h1 h2 h3 => processNode_sets_seed h1 h2 h3
  · exact fun w entries ct n h1 h2 h3 => processNode_sets_width h1 h2 h3
  · exact fun w entries ct n h1 h2 h3 => processNode_sets_height h1 h2 h3

theorem applyWfPrompt_cases (parsed : Option Json) (wf : ComfyUIWorkflow)
    (md : ExtractedMetadata) :
    applyWfPrompt parsed wf md = md ∨
    ∃ v, applyWfPrompt parsed wf md = { md with prompt := some v } := by
  unfold applyWfPrompt
  split
  · exact Or.inr ⟨_, rfl⟩
  · split
    · split
      · exact Or.inr ⟨_, rfl⟩
      · exact Or.inl rfl
    · exact Or.inl rfl

theorem applyWfNegative_cases (wf : ComfyUIWorkflow) (md : ExtractedMetadata) :
    applyWfNegative wf md = md ∨
    ∃ v, applyWfNegative wf md = { md with negative_prompt := some v } := by
  unfold applyWfNegative
  split
  · split
    · exact Or.inr ⟨_, rfl⟩
    · exact Or.inl rfl
  · exact Or.inl rfl

theorem applyWfModel_cases (wf : ComfyUIWorkflow) (md : ExtractedMetadata) :
    applyWfModel wf md = md ∨
    ∃ v, applyWfModel wf md = { md with model := some v } := by
  unfold applyWfModel
  split
  · split
    · exact Or.inr ⟨_, rfl⟩
    · exact Or.inl rfl
  · exact Or.inl rfl

theorem applyWfSeed_cases (wf : ComfyUIWorkflow) (md : ExtractedMetadata) :
    applyWfSeed wf md = md ∨
    ∃ v, applyWfSeed wf md = { md with seed := some v } := by
  unfold applyWfSeed
  split
  · split
    · exact Or.inr ⟨_, rfl⟩
    · exact Or.inl rfl
  · exact Or.inl rfl

theorem applyWfSteps_cases (wf : ComfyUIWorkflow) (md : ExtractedMetadata) :
    applyWfSteps wf md = md ∨
    ∃ v, applyWfSteps wf md = { md with steps := some v } := by
  unfold applyWfSteps
  split
  · split
    · exact Or.inr ⟨_, rfl⟩
    · exact Or.inl rfl
  · exact Or.inl rfl

theorem applyWfCfgScale_cases (wf : ComfyUIWorkflow) (md : ExtractedMetadata) :
    applyWfCfgScale wf md = md ∨
    ∃ v, applyWfCfgScale wf md = { md with cfg_scale := some v } := by
  unfold applyWfCfgScale
  split
  · split
    · exact Or.inr ⟨_, rfl⟩
    · exact Or.inl rfl
  · exact Or.inl rfl

theorem applyWfSampler_cases (wf : ComfyUIWorkflow) (md : ExtractedMetadata) :
    applyWfSampler wf md = md ∨
    ∃ v, applyWfSampler wf md = { md with sampler := some v } := by
  unfold applyWfSampler
  split
  · split
    · exact Or.inr ⟨_, rfl⟩
    · exact Or.inl rfl
  · exact Or.inl rfl

theorem applyWfSize_cases (wf : ComfyUIWorkflow) (md : ExtractedMetadata) :
    applyWfSize wf md = md ∨
    ∃ v, applyWfSize wf md = { md with size := some v } := by
  unfold applyWfSize
  split
  · split
    · exact Or.inr ⟨_, rfl⟩
    · exact Or.inl rfl
  · exact Or.inl rfl

theorem applyWfLora_cases (wf : ComfyUIWorkflow) (md : ExtractedMetadata) :
    applyWfLora wf md = md ∨
    ∃ l, applyWfLora wf md = { md with other := md.other ++ [l] } := by
  unfold applyWfLora
  split
  · exact Or.inr ⟨_, rfl⟩
  · exact Or.inl rfl

theorem applyWfPrompt_frame (parsed : Option Json) (wf : ComfyUIWorkflow)
    (md : ExtractedMetadata) :
    (applyWfPrompt parsed wf md).negative_prompt = md.negative_prompt ∧
    (applyWfPrompt parsed wf md).model = md.model ∧
    (applyWfPrompt parsed wf md).seed = md.seed ∧
    (applyWfPrompt parsed wf md).steps = md.steps ∧
    (applyWfPrompt parsed wf md).cfg_scale = md.cfg_scale ∧
    (applyWfPrompt parsed wf md).sampler = md.sampler ∧
    (applyWfPrompt parsed wf md).size = md.size := by
  rcases applyWfPrompt_cases parsed wf md with h | ⟨v, h⟩ <;> rw [h] <;> simp

theorem applyWfNegative_frame (wf : ComfyUIWorkflow) (md : ExtractedMetadata) :
    (applyWfNegative wf md).prompt = md.prompt ∧
    (applyWfNegative wf md).model = md.model ∧
    (applyWfNegative wf md).seed = md.seed ∧
    (applyWfNegative wf md).steps = md.steps ∧
    (applyWfNegative wf md).cfg_scale = md.cfg_scale ∧
    (applyWfNegative wf md).sampler = md.sampler ∧
    (applyWfNegative wf md).size = md.size := by
  rcases applyWfNegative_cases wf md with h | ⟨v, h⟩ <;> rw [h] <;> simp

theorem applyWfModel_frame (wf : ComfyUIWorkflow) (md : ExtractedMetadata) :
    (applyWfModel wf md).prompt = md.prompt ∧
    (applyWfModel wf md).negative_prompt = md.negative_prompt ∧
    (applyWfModel wf md).seed = md.seed ∧
    (applyWfModel wf md).steps = md.steps ∧
    (applyWfModel wf md).cfg_scale = md.cfg_scale ∧
    (applyWfModel wf md).sampler = md.sampler ∧
    (applyWfModel wf md).size = md.size := by
  rcases applyWfModel_cases wf md with h | ⟨v, h⟩ <;> rw [h] <;> simp

theorem applyWfSeed_frame (wf : ComfyUIWorkflow) (md : ExtractedMetadata) :
    (applyWfSeed wf md).prompt = md.prompt ∧
    (applyWfSeed wf md).negative_prompt = md.negative_prompt ∧
    (applyWfSeed wf md).model = md.model ∧
    (applyWfSeed wf md).steps = md.steps ∧
    (applyWfSeed wf md).cfg_scale = md.cfg_scale ∧
    (applyWfSeed wf md).sampler = md.sampler ∧
    (applyWfSeed wf md).size = md.size := by
  rcases applyWfSeed_cases wf md with h | ⟨v, h⟩ <;> rw [h] <;> simp

theorem applyWfSteps_frame (wf : ComfyUIWorkflow) (md : ExtractedMetadata) :
    (applyWfSteps wf md).prompt = md.prompt ∧
    (applyWfSteps wf md).negative_prompt = md.negative_prompt ∧
    (applyWfSteps wf md).model = md.model ∧
    (applyWfSteps wf md).seed = md.seed ∧
    (applyWfSteps wf md).cfg_scale = md.cfg_scale ∧
    (applyWfSteps wf md).sampler = md.sampler ∧
    (applyWfSteps wf md).size = md.size := by
  rcases applyWfSteps_cases wf md with h | ⟨v, h⟩ <;> rw [h] <;> simp

theorem applyWfCfgScale_frame (wf : ComfyUIWorkflow) (md : ExtractedMetadata) :
    (applyWfCfgScale wf md).prompt = md.prompt ∧
    (applyWfCfgScale wf md).negative_prompt = md.negative_prompt ∧
    (applyWfCfgScale wf md).model = md.model ∧
    (applyWfCfgScale wf md).seed = md.seed ∧
    (applyWfCfgScale wf md).steps = md.steps ∧
    (applyWfCfgScale wf md).sampler = md.sampler ∧
    (applyWfCfgScale wf md).size = md.size := by
  rcases applyWfCfgScale_cases wf md with h | ⟨v, h⟩ <;> rw [h] <;> simp

theorem applyWfSampler_frame (wf : ComfyUIWorkflow) (md : ExtractedMetadata) :
    (applyWfSampler wf md).prompt = md.prompt ∧
    (applyWfSampler wf md).negative_prompt = md.negative_prompt ∧
    (applyWfSampler wf md).model = md.model ∧
    (applyWfSampler wf md).seed = md.seed ∧
    (applyWfSampler wf md).steps = md.steps ∧
    (applyWfSampler wf md).cfg_scale = md.cfg_scale ∧
    (applyWfSampler wf md).size = md.size := by
  rcases applyWfSampler_cases wf md with h | ⟨v, h⟩ <;> rw [h] <;> simp

theorem applyWfSize_frame (wf : ComfyUIWorkflow) (md : ExtractedMetadata) :
    (applyWfSize wf md).prompt = md.prompt ∧
    (applyWfSize wf md).negative_prompt = md.negative_prompt ∧
    (applyWfSize wf md).model = md.model ∧
    (applyWfSize wf md).seed = md.seed ∧
    (applyWfSize wf md).steps = md.steps ∧
    (applyWfSize wf md).cfg_scale = md.cfg_scale ∧
    (applyWfSize wf md).sampler = md.sampler := by
  rcases applyWfSize_cases wf md with h | ⟨v, h⟩ <;> rw [h] <;> simp

theorem applyWfLora_frame (wf : ComfyUIWorkflow) (md : ExtractedMetadata) :
    (applyWfLora wf md).prompt = md.prompt ∧
    (applyWfLora wf md).negative_prompt = md.negative_prompt ∧
    (applyWfLora wf md).model = md.model ∧
    (applyWfLora wf md).seed = md.seed ∧
    (applyWfLora wf md).steps = md.steps ∧
    (applyWfLora wf md).cfg_scale = md.cfg_scale ∧
    (applyWfLora wf md).sampler = md.sampler ∧
    (applyWfLora wf md).size = md.size := by
  rcases applyWfLora_cases wf md with h | ⟨l, h⟩ <;> rw [h] <;> simp

theorem applyWfNegative_keeps {wf : ComfyUIWorkflow} {md : ExtractedMetadata}
    {v : Str} (h : md.negative_prompt = some v) : applyWfNegative wf md = md := by
  unfold applyWfNegative
  split
  · rw [if_neg (by simp [h])]
  · rfl

theorem applyWfModel_keeps {wf : ComfyUIWorkflow} {md : ExtractedMetadata}
    {v : Str} (h : md.model = some v) : applyWfModel wf md = md := by
  unfold applyWfModel
  split
  · rw [if_neg (by simp [h])]
  · rfl

theorem applyWfSeed_keeps {wf : ComfyUIWorkflow} {md : ExtractedMetadata}
    {v : Str} (h : md.seed = some v) : applyWfSeed wf md = md := by
  unfold applyWfSeed
  split
  · rw [if_neg (by simp [h])]
  · rfl

theorem applyWfSteps_keeps {wf : ComfyUIWorkflow} {md : ExtractedMetadata}
    {v : Str} (h : md.steps = some v) : applyWfSteps wf md = md := by
  unfold applyWfSteps
  split
  · rw [if_neg (by simp [h])]
  · rfl

theorem applyWfCfgScale_keeps {wf : ComfyUIWorkflow} {md : ExtractedMetadata}
    {v : Str} (h : md.cfg_scale = some v) : applyWfCfgScale wf md = md := by
  unfold applyWfCfgScale
  split
  · rw [if_neg (by simp [h])]
  · rfl

theorem applyWfSampler_keeps {wf : ComfyUIWorkflow} {md : ExtractedMetadata}
    {v : Str} (h : md.sampler = some v) : applyWfSampler wf md = md := by
  unfold applyWfSampler
  split
  · rw [if_neg (by simp [h])]
  · rfl

theorem applyWfSize_keeps {wf : ComfyUIWorkflow} {md : ExtractedMetadata}
    {v : Str} (h : md.size = some v) : applyWfSize wf md = md := by
  unfold applyWfSize
  split
  · rw [if_neg (by simp [h])]
  · rfl

theorem parse_some_eq (j : Json) :
    parse_comfyui_workflow (some j) = some (wfOf j) := rfl

theorem apply_some_eq (j : Json) (md : ExtractedMetadata) :
    apply_comfyui_to_metadata (some j) md =
      applyWfLora (wfOf j) (applyWfSize (wfOf j) (applyWfSampler (wfOf j)
        (applyWfCfgScale (wfOf j) (applyWfSteps (wfOf j) (applyWfSeed (wfOf j)
          (applyWfModel (wfOf j) (applyWfNegative (wfOf j)
            (applyWfPrompt (some j) (wfOf j) md)))))))) := rfl

theorem chain_keeps_negative (parsed : Option Json) (wf : ComfyUIWorkflow)
    (md : ExtractedMetadata) {v : Str} (h : md.negative_prompt = some v) :
    (applyWfLora wf (applyWfSize wf (applyWfSampler wf (applyWfCfgScale wf
      (applyWfSteps wf (applyWfSeed wf (applyWfModel wf (applyWfNegative wf
        (applyWfPrompt parsed wf md))))))))).negative_prompt = some v := by
  rw [(applyWfLora_frame _ _).2.1, (applyWfSize_frame _ _).2.1,
    (applyWfSampler_frame _ _).2.1, (applyWfCfgScale_frame _ _).2.1,
    (applyWfSteps_frame _ _).2.1, (applyWfSeed_frame _ _).2.1,
    (applyWfModel_frame _ _).2.1,
    applyWfNegative_keeps (by rw [(applyWfPrompt_frame parsed wf md).1]; exact h),
    (applyWfPrompt_frame parsed wf md).1]
  exact h

theorem chain_keeps_model (parsed : Option Json) (wf : ComfyUIWorkflow)
    (md : ExtractedMetadata) {v : Str} (h : md.model = some v) :
    (applyWfLora wf (applyWfSize wf (applyWfSampler wf (applyWfCfgScale wf
      (applyWfSteps wf (applyWfSeed wf (applyWfModel wf (applyWfNegative wf
        (applyWfPrompt parsed wf md))))))))).model = some v := by
  rw [(applyWfLora_frame _ _).2.2.1, (applyWfSize_frame _ _).2.2.1,
    (applyWfSampler_frame _ _).2.2.1, (applyWfCfgScale_frame _ _).2.2.1,
    (applyWfSteps_frame _ _).2.2.1, (applyWfSeed_frame _ _).2.2.1,
    applyWfModel_keeps (by
      rw [(applyWfNegative_frame _ _).2.1, (applyWfPrompt_frame parsed wf md).2.1]
      exact h),
    (applyWfNegative_frame _ _).2.1, (applyWfPrompt_frame parsed wf md).2.1]
  exact h

theorem chain_keeps_seed (parsed : Option Json) (wf : ComfyUIWorkflow)
    (md : ExtractedMetadata) {v : Str} (h : md.seed = some v) :
    (applyWfLora wf (applyWfSize wf (applyWfSampler wf (applyWfCfgScale wf
      (applyWfSteps wf (applyWfSeed wf (applyWfModel wf (applyWfNegative wf
        (applyWfPrompt parsed wf md))))))))).seed = some v := by
  rw [(applyWfLora_frame _ _).2.2.2.1, (applyWfSize_frame _ _).2.2.2.1,
    (applyWfSampler_frame _ _).2.2.2.1, (applyWfCfgScale_frame _ _).2.2.2.1,
    (applyWfSteps_frame _ _).2.2.2.1,
    applyWfSeed_keeps (by
      rw [(applyWfModel_frame _ _).2.2.1, (applyWfNegative_frame _ _).2.2.1,
        (applyWfPrompt_frame parsed wf md).2.2.1]
      exact h),
    (applyWfModel_frame _ _).2.2.1, (applyWfNegative_frame _ _).2.2.1,
    (applyWfPrompt_frame parsed wf md).2.2.1]
  exact h

theorem chain_keeps_steps (parsed : Option Json) (wf : ComfyUIWorkflow)
    (md : ExtractedMetadata) {v : Str} (h : md.steps = some v) :
    (applyWfLora wf (applyWfSize wf (applyWfSampler wf (applyWfCfgScale wf
      (applyWfSteps wf (applyWfSeed wf (applyWfModel wf (applyWfNegative wf
        (applyWfPrompt parsed wf md))))))))).steps = some v := by
  rw [(applyWfLora_frame _ _).2.2.2.2.1, (applyWfSize_frame _ _).2.2.2.2.1,
    (applyWfSampler_frame _ _).2.2.2.2.1, (applyWfCfgScale_frame _ _).2.2.2.2.1,
    applyWfSteps_keeps (by
      rw [(applyWfSeed_frame _ _).2.2.2.1, (applyWfModel_frame _ _).2.2.2.1,
        (applyWfNegative_frame _ _).2.2.2.1, (applyWfPrompt_frame parsed wf md).2.2.2.1]
      exact h),
    (applyWfSeed_frame _ _).2.2.2.1, (applyWfModel_frame _ _).2.2.2.1,
    (applyWfNegative_frame _ _).2.2.2.1, (applyWfPrompt_frame parsed wf md).2.2.2.1]
  exact h

theorem chain_keeps_cfg (parsed : Option Json) (wf : ComfyUIWorkflow)
    (md : ExtractedMetadata) {v : Str} (h : md.cfg_scale = some v) :
    (applyWfLora wf (applyWfSize wf (applyWfSampler wf (applyWfCfgScale wf
      (applyWfSteps wf (applyWfSeed wf (applyWfModel wf (applyWfNegative wf
        (applyWfPrompt parsed wf md))))))))).cfg_scale = some v := by
  rw [(applyWfLora_frame _ _).2.2.2.2.2.1, (applyWfSize_frame _ _).2.2.2.2.2.1,
    (applyWfSampler_frame _ _).2.2.2.2.2.1,
    applyWfCfgScale_keeps (by
      rw [(applyWfSteps_frame _ _).2.2.2.2.1, (applyWfSeed_frame _ _).2.2.2.2.1,
        (applyWfModel_frame _ _).2.2.2.2.1, (applyWfNegative_frame _ _).2.2.2.2.1,
        (applyWfPrompt_frame parsed wf md).2.2.2.2.1]
      exact h),
    (applyWfSteps_frame _ _).2.2.2.2.1, (applyWfSeed_frame _ _).2.2.2.2.1,
    (applyWfModel_frame _ _).2.2.2.2.1, (applyWfNegative_frame _ _).2.2.2.2.1,
    (applyWfPrompt_frame parsed wf md).2.2.2.2.1]
  exact h

theorem chain_keeps_sampler (parsed : Option Json) (wf : ComfyUIWorkflow)
    (md : ExtractedMetadata) {v : Str} (h : md.sampler = some v) :
    (applyWfLora wf (applyWfSize wf (applyWfSampler wf (applyWfCfgScale wf
      (applyWfSteps wf (applyWfSeed wf (applyWfModel wf (applyWfNegative wf
        (applyWfPrompt parsed wf md))))))))).sampler = some v := by
  rw [(applyWfLora_frame _ _).2.2.2.2.2.2.1, (applyWfSize_frame _ _).2.2.2.2.2.2,
    applyWfSampler_keeps (by
      rw [(applyWfCfgScale_frame _ _).2.2.2.2.2.1, (applyWfSteps_frame _ _).2.2.2.2.2.1,
        (applyWfSeed_frame _ _).2.2.2.2.2.1, (applyWfModel_frame _ _).2.2.2.2.2.1,
        (applyWfNegative_frame _ _).2.2.2.2.2.1,
        (applyWfPrompt_frame parsed wf md).2.2.2.2.2.1]
      exact h),
    (applyWfCfgScale_frame _ _).2.2.2.2.2.1, (applyWfSteps_frame _ _).2.2.2.2.2.1,
    (applyWfSeed_frame _ _).2.2.2.2.2.1, (applyWfModel_frame _ _).2.2.2.2.2.1,
    (applyWfNegative_frame _ _).2.2.2.2.2.1,
    (applyWfPrompt_frame parsed wf md).2.2.2.2.2.1]
  exact h

theorem chain_keeps_size (parsed : Option Json) (wf : ComfyUIWorkflow)
    (md : ExtractedMetadata) {v : Str} (h : md.size = some v) :
    (applyWfLora wf (applyWfSize wf (applyWfSampler wf (applyWfCfgScale wf
      (applyWfSteps wf (applyWfSeed wf (applyWfModel wf (applyWfNegative wf
        (applyWfPrompt parsed wf md))))))))).size = some v := by
  rw [(applyWfLora_frame _ _).2.2.2.2.2.2.2,
    applyWfSize_keeps (by
      rw [(applyWfSampler_frame _ _).2.2.2.2.2.2, (applyWfCfgScale_frame _ _).2.2.2.2.2.2,
        (applyWfSteps_frame _ _).2.2.2.2.2.2, (applyWfSeed_frame _ _).2.2.2.2.2.2,
        (applyWfModel_frame _ _).2.2.2.2.2.2, (applyWfNegative_frame _ _).2.2.2.2.2.2,
        (applyWfPrompt_frame parsed wf md).2.2.2.2.2.2]
      exact h),
    (applyWfSampler_frame _ _).2.2.2.2.2.2, (applyWfCfgScale_frame _ _).2.2.2.2.2.2,
    (applyWfSteps_frame _ _).2.2.2.2.2.2, (applyWfSeed_frame _ _).2.2.2.2.2.2,
    (applyWfModel_frame _ _).2.2.2.2.2.2, (applyWfNegative_frame _ _).2.2.2.2.2.2,
    (applyWfPrompt_frame parsed wf md).2.2.2.2.2.2]
  exact h

theorem chain_sets_prompt (parsed : Option Json) (wf : ComfyUIWorkflow)
    (md : ExtractedMetadata) {p : Str} (h : wf.readable_prompt = some p) :
    (applyWfLora wf (applyWfSize wf (applyWfSampler wf (applyWfCfgScale wf
      (applyWfSteps wf (applyWfSeed wf (applyWfModel wf (applyWfNegative wf
        (applyWfPrompt parsed wf md))))))))).prompt = some p := by
  rw [(applyWfLora_frame _ _).1, (applyWfSize_frame _ _).1,
    (applyWfSampler_frame _ _).1, (applyWfCfgScale_frame _ _).1,
    (applyWfSteps_frame _ _).1, (applyWfSeed_frame _ _).1,
    (applyWfModel_frame _ _).1, (applyWfNegative_frame _ _).1]
  unfold applyWfPrompt
  rw [h]

/-- C2: on input that is not well-formed JSON (`parsed = none`, the
`serde_json` error turned into `Err` by `?`), `parse_comfyui_workflow`
returns the structured failure `none`, and `apply_comfyui_to_metadata`
returns the metadata unchanged rather than propagating an error: its
fallback scan re-parses the same malformed string, so the pre-order
`populated_text` search has no tree to visit and recovers nothing. -/
theorem C2_malformed_json_fallback (md : ExtractedMetadata) :
    parse_comfyui_workflow none = none ∧
    apply_comfyui_to_metadata none md = md :=
  ⟨rfl, rfl⟩

/-- C8: `apply_comfyui_to_metadata` writes negative_prompt, model, seed,
steps, cfg_scale, sampler and size only when unset — an already-set value
survives for every input — while the prompt field is overwritten by the
workflow's readable prompt even when already set. -/
theorem C8_metadata_set_once (parsed : Option Json) (md : ExtractedMetadata) :
    (∀ v, md.negative_prompt = some v →
      (apply_comfyui_to_metadata parsed md).negative_prompt = some v) ∧
    (∀ v, md.model = some v → (apply_comfyui_to_metadata parsed md).model = some v) ∧
    (∀ v, md.seed = some v → (apply_comfyui_to_metadata parsed md).seed = some v) ∧
    (∀ v, md.steps = some v → (apply_comfyui_to_metadata parsed md).steps = some v) ∧
    (∀ v, md.cfg_scale = some v →
      (apply_comfyui_to_metadata parsed md).cfg_scale = some v) ∧
    (∀ v, md.sampler = some v →
      (apply_comfyui_to_metadata parsed md).sampler = some v) ∧
    (∀ v, md.size = some v → (apply_comfyui_to_metadata parsed md).size = some v) ∧
    (∀ wf p, parse_comfyui_workflow parsed = some wf → wf.readable_prompt = some p →
      (apply_comfyui_to_metadata parsed md).prompt = some p) := by
  cases parsed with
  | none =>
    refine ⟨fun v h => h, fun v h => h, fun v h => h, fun v h => h, fun v h => h,
      fun v h => h, fun v h => h, fun wf p hpw hrp => ?_⟩
    simp [parse_comfyui_workflow] at hpw
  | some j =>
    refine ⟨?_, ?_, ?_, ?_, ?_, ?_, ?_, ?_⟩
    · intro v h; rw [apply_some_eq]; exact chain_keeps_negative _ _ _ h
    · intro v h; rw [apply_some_eq]; exact chain_keeps_model _ _ _ h
    · intro v h; rw [apply_some_eq]; exact chain_keeps_seed _ _ _ h
    · intro v h; rw [apply_some_eq]; exact chain_keeps_steps _ _ _ h
    · intro v h; rw [apply_some_eq]; exact chain_keeps_cfg _ _ _ h
    · intro v h; rw [apply_some_eq]; exact chain_keeps_sampler _ _ _ h
    · intro v h; rw [apply_some_eq]; exact chain_keeps_size _ _ _ h
    · intro wf p hpw hrp
      rw [parse_some_eq] at hpw
      obtain rfl : wfOf j = wf := Option.some.inj hpw
      rw [apply_some_eq]
      exact chain_sets_prompt _ _ md hrp

/-- Witness for C1 at concrete inputs: an already-set readable prompt
survives a node, and a `KSampler` node writes `steps` into a fresh
workflow. -/
theorem C1_workflow_write_policy_witness :
    (processNode { emptyWorkflow with readable_prompt := some (("x").data) }
        (Json.obj wSamplerNodeEntries)).readable_prompt = some (("x").data) ∧
    (processNode emptyWorkflow (Json.obj wSamplerNodeEntries)).steps
      = some (natToStr 20) :=
  ⟨C1_workflow_write_policy.1 _ _ _ rfl,
   C1_workflow_write_policy.2.2.2.2.2.2.2.2.2.2.2.2.1 emptyWorkflow
     wSamplerNodeEntries (("KSampler").data) 20 (by decide) (by decide) (by decide)⟩

/-- Witness for C8 at a concrete input: the already-set steps value
survives a workflow carrying 30 steps, while the already-set prompt is
overwritten by the workflow's readable prompt. -/
theorem C8_metadata_set_once_witness :
    (apply_comfyui_to_metadata (some c8Doc) c8Md).steps = some (("20").data) ∧
    (apply_comfyui_to_metadata (some c8Doc) c8Md).prompt = some (("new").data) :=
  ⟨(C8_metadata_set_once (some c8Doc) c8Md).2.2.2.1 (("20").data) rfl,
   (C8_metadata_set_once (some c8Doc) c8Md).2.2.2.2.2.2.2 (wfOf c8Doc)
     (("new").data) rfl (by decide)⟩

theorem pngSlice_length (data : List Nat) (s e : Nat) (he : e ≤ data.length) :
    (pngSlice data s e).length = e - s := by
  simp [pngSlice]
  omega

theorem pngLoop_eq_walk_aux (data : List Nat) :
    ∀ n offset, data.length - offset ≤ n →
      pngLoop data offset = List.filterMap decodeTEXt (pngChunkWalk data offset) := by
  intro n
  induction n with
  | zero =>
    intro offset hle
    have h1 : ¬ offset < data.length := by omega
    rw [pngLoop, pngChunkWalk]
    simp [h1]
  | succ n ih =>
    intro offset hle
    rw [pngLoop, pngChunkWalk]
    by_cases h1 : offset < data.length
    · simp only [dif_pos h1]
      by_cases h2 : offset + 8 > data.length
      · simp [h2]
      · simp only [if_neg h2]
        by_cases h4 :
            utf8Lossy (pngSlice data (offset + 4) (offset + 4 + 4)) = ("IEND").data
        · simp [h4]
        · simp only [if_neg h4]
          by_cases h5 : offset + 8 + readBE32 data offset + 4 > data.length
          · simp [h5]
          · simp only [if_neg h5]
            have ihn := ih (offset + 8 + readBE32 data offset + 4) (by omega)
            rw [List.filterMap_cons, ← ihn]
            have hlen : (pngSlice data (offset + 8)
                (offset + 8 + readBE32 data offset)).length = readBE32 data offset := by
              rw [pngSlice_length data _ _ (by omega)]
              omega
            unfold decodeTEXt
            by_cases h6 :
                utf8Lossy (pngSlice data (offset + 4) (offset + 4 + 4)) = ("tEXt").data ∧
                0 < readBE32 data offset
            · rw [if_pos h6]
              rw [if_pos (show _ ∧ _ from ⟨h6.1, by rw [hlen]; exact h6.2⟩)]
              cases hf : (pngSlice data (offset + 8)
                  (offset + 8 + readBE32 data offset)).findIdx? (fun b => b == 0) with
              | none => rfl
              | some nullPos =>
                simp only []
                by_cases h7 : nullPos + 1 <
                    (pngSlice data (offset + 8) (offset + 8 + readBE32 data offset)).length
                · rw [if_pos h7, if_pos h7]
                · rw [if_neg h7, if_neg h7]
            · rw [if_neg h6]
              rw [if_neg (by
                intro hc
                exact h6 ⟨hc.1, by rw [← hlen]; exact hc.2⟩)]
    · simp [h1]

/-- C5 counterexample: a `tEXt` chunk whose payload `k\0` has a first NUL
byte (at index 1, so the split into `("k", "")` is well defined), yet the
reader returns no pair at all — the claim's "each tEXt chunk's payload is
split at its first NUL byte into a (keyword, text) pair" fails when the
NUL is the final payload byte. -/
theorem C5_counterexample :
    parse_png_text_chunks c5NulEndBuf = some [] ∧
    pngChunkWalk c5NulEndBuf 8 = [((("tEXt").data), [107, 0])] ∧
    List.findIdx? (fun b => b == 0) [107, 0] = some 1 := by
  refine ⟨?_, ?_, by decide⟩
  · simp +decide [parse_png_text_chunks, pngLoop, c5NulEndBuf, readBE32, pngSlice,
      utf8Lossy, utf8Cont, utf8Sec, utf8Repl]
  · simp +decide [pngChunkWalk, c5NulEndBuf, readBE32, pngSlice,
      utf8Lossy, utf8Cont, utf8Sec, utf8Repl]

/-- C5 amended: the PNG reader decodes exactly the `tEXt` chunks met by
the chunk walk, in file order, where a `tEXt` chunk with positive declared
length contributes the lossily decoded halves around its first NUL byte
only when that NUL is neither absent nor the final payload byte
(`decodeTEXt`); the claim's two-chunk example yields both pairs in file
order. -/
theorem C5_amended_text_chunks :
    (∀ data, parse_png_text_chunks data =
      some (List.filterMap decodeTEXt (pngChunkWalk data 8))) ∧
    parse_png_text_chunks c5TwoChunkBuf =
      some [((("parameters").data), (("X").data)), ((("prompt").data), (("Y").data))] := by
  constructor
  · intro data
    unfold parse_png_text_chunks
    rw [pngLoop_eq_walk_aux data (data.length - 8) 8 le_rfl]
  · simp +decide [parse_png_text_chunks, pngLoop, c5TwoChunkBuf, readBE32, pngSlice,
      utf8Lossy, utf8Cont, utf8Sec, utf8Repl]

theorem xmpElemScan_eq (xmp : Str) (chunks : List (Str × Str)) :
    xmpElemScan xmp chunks = chunks ++
      (Option.toList (elemDesc xmp)).map (fun d => ((("description").data), d)) := by
  unfold xmpElemScan elemDesc
  rcases h1 : findSub dcOpenTag xmp with _ | start <;> simp only [h1]
  · simp
  · rcases h2 : findSub dcCloseTag (xmp.drop start) with _ | endRel <;> simp only [h2]
    · simp
    · by_cases h3 : (xmp.take (start + endRel)).drop (start + 16) ≠ []
      · simp [h3]
      · simp [h3]

theorem xmpAttrScan_eq (xmp : Str) (chunks : List (Str × Str)) :
    xmpAttrScan xmp chunks = chunks ++
      (Option.toList (attrDesc xmp)).map (fun d => ((("description").data), d)) := by
  unfold xmpAttrScan attrDesc
  rcases h1 : findSub rdfDescTag xmp with _ | start <;> simp only [h1]
  · simp
  · rcases h2 : findSub dcAttrKey (xmp.drop start) with _ | descStart <;> simp only [h2]
    · simp
    · rcases h3 : findSub quoteStr (xmp.drop (start + descStart + 16)) with _ | descEnd <;>
        simp only [h3]
      · simp
      · by_cases h4 : (xmp.take (start + descStart + 16 + descEnd)).drop
            (start + descStart + 16) ≠ []
        · simp [h4]
        · simp [h4]

/-- C9 counterexample: on a payload where both the element scan and the
attribute scan find a non-empty description, the XMP scanner pushes TWO
`("description", …)` pairs — one per scan — not exactly one pair holding
the first non-empty match. -/
theorem C9_counterexample :
    parse_xmp_for_prompts c9Xmp [] =
      [((("description").data), (("A").data)), ((("description").data), (("B").data))] := by
  decide

/-- C9 amended: the element scan and the attribute scan act
independently: the scanner appends one `("description", …)` pair for the
element scan's non-empty match (if any) and then one for the attribute
scan's non-empty match (if any) — zero, one or two pairs, element match
first, rather than exactly one pair holding the first non-empty match. -/
theorem C9_amended_xmp_description (xmp : Str) (chunks : List (Str × Str)) :
    parse_xmp_for_prompts xmp chunks =
      chunks ++
        (Option.toList (elemDesc xmp)).map (fun d => ((("description").data), d)) ++
        (Option.toList (attrDesc xmp)).map (fun d => ((("description").data), d)) := by
  unfold parse_xmp_for_prompts
  rw [xmpElemScan_eq, xmpAttrScan_eq, List.append_assoc]

/-- C10: a buffer without a valid 12-byte `RIFF`+size+`WEBP` header —
too short, wrong `RIFF` magic, or wrong `WEBP` magic — yields `Ok` with
an empty chunk list, never an error. -/
theorem C10_invalid_header_empty (data : List Nat)
    (h : data.length < 12 ∨ pngSlice data 0 4 ≠ riffBytes ∨
      pngSlice data 8 12 ≠ webpBytes) :
    parse_webp_chunks data = some [] := by
  unfold parse_webp_chunks
  split_ifs with h1 h2 h3
  · rfl
  · rfl
  · rfl
  · exfalso
    rcases h with h | h | h
    · exact h1 h
    · exact h2 h
    · exact h3 (Or.inr h)

/-- Witness for C10 at a concrete input: the empty buffer is shorter
than 12 bytes and yields `Ok` with no chunks. -/
theorem C10_invalid_header_empty_witness :
    ([] : List Nat).length < 12 ∧ parse_webp_chunks [] = some [] :=
  ⟨by decide, C10_invalid_header_empty [] (Or.inl (by decide))⟩

theorem pushIfNew_inv {st : List (Str × Str × ℚ) × List Str} (h : TagInv st)
    (name cat : Str) (conf : ℚ) (ok : Bool) :
    TagInv (pushIfNew name cat conf ok st) := by
  obtain ⟨h1, h2⟩ := h
  unfold pushIfNew
  split
  · rename_i hc
    constructor
    · simp only [List.map_append, List.map_cons, List.map_nil]
      refine List.Nodup.append h1 (by simp) ?_
      intro a ha hb
      simp at hb
      subst hb
      exact hc.2 (h2 _ ha)
    · intro n hn
      simp only [List.map_append, List.map_cons, List.map_nil,
        List.mem_append] at hn
      rcases hn with hn | hn
      · exact List.mem_append_left _ (h2 _ hn)
      · simp at hn
        subst hn
        exact List.mem_append_right _ (by simp)
  · exact ⟨h1, h2⟩

theorem foldl_tagInv {α : Type} (f : (List (Str × Str × ℚ) × List Str) → α →
    (List (Str × Str × ℚ) × List Str))
    (hf : ∀ st a, TagInv st → TagInv (f st a)) :
    ∀ (l : List α) (st : List (Str × Str × ℚ) × List Str),
      TagInv st → TagInv (l.foldl f st) := by
  intro l
  induction l with
  | nil => intro st h; exact h
  | cons a t ih => intro st h; exact ih _ (hf _ _ h)

theorem segStep_inv {st : List (Str × Str × ℚ) × List Str} (h : TagInv st)
    (segment : Str) : TagInv (segStep st segment) := by
  unfold segStep
  exact pushIfNew_inv
    (foldl_tagInv _ (fun s a hs => pushIfNew_inv hs _ _ _ _) _ _
      (foldl_tagInv _ (fun s a hs => pushIfNew_inv hs _ _ _ _) _ _
        (foldl_tagInv _ (fun s a hs => pushIfNew_inv hs _ _ _ _) _ _ h))) _ _ _ _

theorem negStep_inv {st : List (Str × Str × ℚ) × List Str} (h : TagInv st)
    (segment : Str) : TagInv (negStep st segment) := by
  unfold negStep
  exact pushIfNew_inv h _ _ _ _

/-- C7: the tag extractor never emits two tags with the same name — the
`seen_tags` set keys on the normalized segment text alone, across all
five categories. -/
theorem C7_tag_names_distinct (prompt : Str) (negative_prompt : Option Str) :
    (((extract_from_prompt prompt negative_prompt).getD []).map
      (fun t => t.1)).Nodup := by
  unfold extract_from_prompt
  have base : TagInv ([], []) := ⟨List.nodup_nil, by simp⟩
  have h1 := foldl_tagInv segStep (fun st a h => segStep_inv h a)
    (PromptNormalizer.extract_segments prompt) ([], []) base
  cases negative_prompt with
  | none => exact h1.1
  | some neg =>
    exact (foldl_tagInv negStep (fun st a h => negStep_inv h a)
      (PromptNormalizer.extract_segments neg) _ h1).1
